import Mathlib

/-!
Verification of the carnage-reporter scoreboard OCR engine (src/src/main.cpp).

Shallow embedding notes:
* `uint32_t` / `int16_t` quantities are modelled as `Nat`: in every reachable
  use the values are small (pixel coordinates below a few hundred, glyph
  metrics of a well-formed font), so machine-integer wrap-around never fires
  and plain `Nat` arithmetic agrees with the source.  The one place where the
  source genuinely computes a possibly negative signed value — the glyph row
  `ascending_height - bitmap_origin_y` in `draw_text` — is modelled as `Int`;
  the source's `uint32_t` wrap of a negative destination row always fails the
  `height > y` bound check, which coincides with the explicit `0 ≤ y` check of
  the model.
* the row-major pixel vectors (`std::vector<Monochrome>`, indexed `x + y*width`)
  are modelled as functions `Nat → Nat → Nat` of the (column, row) pair; every
  access the source performs under its bounds guards has `x < width`, where
  flat indexing is in bijection with the pair.
* `float` scores are modelled as exact rationals (`ℚ`): the scores are ratios
  `hits / total` of small naturals and the thresholds (`0.85`, `0.5`, `0`) are
  compared far from any rounding boundary of the small ratios involved.
-/

set_option maxRecDepth 4000

/-- A monochrome intensity buffer (source: `std::vector<Monochrome>` with a
row-major layout); the value of `pix x y` is the intensity at column `x`,
row `y`. -/
structure Screenshot where
  width : Nat
  pix : Nat → Nat → Nat

/-- Source: `Image<Monochrome>` — `width`, `height`, row-major `pixels`,
and the bookkeeping `text` (kept as the list of byte codes of the string). -/
structure MonochromeImage where
  width : Nat
  height : Nat
  pix : Nat → Nat → Nat
  text : List Nat

/-- Source: `FontCharacter` (main.cpp:112-123), byte-swapped to host order.
All metric fields of a well-formed font are non-negative, so they are
modelled as `Nat` (see the header comment). -/
structure FontCharacter where
  character_width : Nat
  bitmap_width : Nat
  bitmap_height : Nat
  bitmap_origin_x : Nat
  bitmap_origin_y : Nat
  pixels_offset : Nat

/-- Source: the `Font` header fields used by the engine (main.cpp:95-110). -/
structure Font where
  ascending_height : Nat
  descending_height : Nat

/-- The body of the `filter_monochrome` loop (main.cpp:180-190): intensities
below `0x4F` become `0`, all others `0xFF`. -/
def filterPixel (m : Nat) : Nat :=
  if m < 0x4F then 0 else 0xFF

/-- Source: `filter_monochrome` (main.cpp:180-190), the in-place loop over the
buffer modelled as a map. -/
def filter_monochrome (l : List Nat) : List Nat :=
  l.map filterPixel

/-- The filter `filter_monochrome` acting on the functional pixel model of an image
(the source applies the same in-place loop to `Image::pixels`). -/
def filterImage (img : MonochromeImage) : MonochromeImage :=
  { img with pix := fun x y => filterPixel (img.pix x y) }

/-- One row of the hit count of `match` (main.cpp:263-275): the number of
`tx < text.width` whose absolute intensity difference from the aligned
screenshot pixel is strictly below `0x10`. -/
def hitRow (scr : Screenshot) (t : MonochromeImage) (x y ty : Nat) : Nat :=
  (List.range t.width).countP fun tx =>
    decide (((t.pix tx ty : Int) - (scr.pix (tx + x) (ty + y) : Int)).natAbs < 0x10)

/-- Source: the `match` lambda (main.cpp:255-278).  Returns `0` under the
bounds/degeneracy guard, otherwise `hits / total` as an exact rational. -/
def matchScore (scr : Screenshot) (t : MonochromeImage) (x y : Nat) : ℚ :=
  if x + t.width > scr.width ∨ y + t.height > 480 ∨ t.width = 0 ∨ t.height = 0 then 0
  else (((List.range t.height).map (hitRow scr t x y)).sum : ℚ) / ((t.height * t.width : Nat) : ℚ)

/-- The score of `match` called with possibly negative (offset) coordinates: the source
converts the negative `int` to a huge `uint32_t`, which always fails the
`x + width > image_width` (resp. row) guard, hence scores `0`. -/
def matchAt (scr : Screenshot) (t : MonochromeImage) (x y : Int) : ℚ :=
  if x < 0 ∨ y < 0 then 0 else matchScore scr t x.toNat y.toNat

/-- The count of template pixels that hit, written the way the specification
words it: the number of pixel positions of the template whose absolute
intensity difference from the aligned screenshot pixel is strictly below
`0x10`. -/
def specHits (scr : Screenshot) (t : MonochromeImage) (x y : Nat) : Nat :=
  ∑ ty ∈ Finset.range t.height, ((Finset.range t.width).filter fun tx =>
    ((t.pix tx ty : Int) - (scr.pix (tx + x) (ty + y) : Int)).natAbs < 0x10).card

lemma countP_range_eq_card_filter (n : Nat) (p : Nat → Prop) [DecidablePred p] :
    (List.range n).countP (fun a => decide (p a)) = ((Finset.range n).filter p).card := by
  induction n with
  | zero => simp
  | succ n ih =>
      rw [List.range_succ, List.countP_append, Finset.range_succ, Finset.filter_insert]
      by_cases h : p n
      · rw [if_pos h, Finset.card_insert_of_not_mem (by simp)]
        simp [List.countP_cons, h, ih, Nat.add_comm]
      · rw [if_neg h]
        simp [List.countP_cons, h, ih]

lemma hitRow_eq (scr : Screenshot) (t : MonochromeImage) (x y ty : Nat) :
    hitRow scr t x y ty = ((Finset.range t.width).filter fun tx =>
      ((t.pix tx ty : Int) - (scr.pix (tx + x) (ty + y) : Int)).natAbs < 0x10).card := by
  exact countP_range_eq_card_filter _ _

lemma hits_eq_specHits (scr : Screenshot) (t : MonochromeImage) (x y : Nat) :
    ((List.range t.height).map (hitRow scr t x y)).sum = specHits scr t x y := by
  unfold specHits
  induction t.height with
  | zero => simp
  | succ n ih =>
      rw [List.range_succ, List.map_append, List.sum_append, Finset.sum_range_succ, ih]
      simp [hitRow_eq]

lemma hitRow_le (scr : Screenshot) (t : MonochromeImage) (x y ty : Nat) :
    hitRow scr t x y ty ≤ t.width := by
  calc hitRow scr t x y ty ≤ (List.range t.width).length := List.countP_le_length _
    _ = t.width := List.length_range _

lemma hits_le_total (scr : Screenshot) (t : MonochromeImage) (x y : Nat) :
    ((List.range t.height).map (hitRow scr t x y)).sum ≤ t.height * t.width := by
  induction t.height with
  | zero => simp
  | succ n ih =>
      rw [List.range_succ, List.map_append, List.sum_append, Nat.succ_mul]
      simpa using Nat.add_le_add ih (hitRow_le scr t x y n)

/-- Claim C9: the monochrome threshold filter maps every intensity strictly
below `0x4F` to `0` and every other intensity to `0xFF`, and it is idempotent:
applying it twice yields the same buffer as applying it once. -/
theorem C9_filter_monochrome (l : List Nat) :
    (∀ i, i < l.length →
      (filter_monochrome l).getD i 0 =
        if l.getD i 0 < 0x4F then 0 else 0xFF) ∧
    filter_monochrome (filter_monochrome l) = filter_monochrome l := by
  constructor
  · intro i hi
    unfold filter_monochrome filterPixel
    rw [List.getD_eq_getElem?_getD, List.getElem?_map,
        List.getElem?_eq_getElem hi]
    simp [List.getD_eq_getElem?_getD, List.getElem?_eq_getElem hi]
  · unfold filter_monochrome
    rw [List.map_map]
    apply List.map_congr_left
    intro a _
    by_cases h : a < 0x4F <;> simp [filterPixel, h]

theorem C9_filter_monochrome_witness :
    (filter_monochrome [0x20, 0x4F, 0xFF]).getD 0 0 = 0 ∧
    (filter_monochrome [0x20, 0x4F, 0xFF]).getD 1 0 = 0xFF ∧
    filter_monochrome (filter_monochrome [0x20, 0x4F, 0xFF]) =
      filter_monochrome [0x20, 0x4F, 0xFF] := by
  refine ⟨?_, ?_, (C9_filter_monochrome [0x20, 0x4F, 0xFF]).2⟩
  · have h := (C9_filter_monochrome [0x20, 0x4F, 0xFF]).1 0 (by decide)
    simpa using h
  · have h := (C9_filter_monochrome [0x20, 0x4F, 0xFF]).1 1 (by decide)
    simpa using h

/-- Claim C1: `match` returns exactly `0` when the template would extend past
the screenshot's right edge (`x + width > image width`), past row `480`
(`y + height > 480`), or has zero width or height; otherwise it returns the
number of template pixels whose absolute intensity difference from the aligned
screenshot pixel is strictly below `0x10`, divided by the total number of
template pixels; and the returned value always lies in `[0, 1]`. -/
theorem C1_match_contract (scr : Screenshot) (t : MonochromeImage) (x y : Nat) :
    ((x + t.width > scr.width ∨ y + t.height > 480 ∨ t.width = 0 ∨ t.height = 0) →
      matchScore scr t x y = 0) ∧
    (¬(x + t.width > scr.width ∨ y + t.height > 480 ∨ t.width = 0 ∨ t.height = 0) →
      matchScore scr t x y =
        (specHits scr t x y : ℚ) / ((t.height * t.width : Nat) : ℚ)) ∧
    0 ≤ matchScore scr t x y ∧ matchScore scr t x y ≤ 1 := by
  refine ⟨fun h => by simp [matchScore, h], fun h => ?_, ?_, ?_⟩
  · rw [matchScore, if_neg h, hits_eq_specHits]
  · unfold matchScore
    split
    · exact le_refl 0
    · positivity
  · unfold matchScore
    split
    · exact zero_le_one
    · rename_i h
      rcases Nat.eq_zero_or_pos (t.height * t.width) with h0 | h0
      · simp [h0]
      · rw [div_le_one (by exact_mod_cast h0)]
        exact_mod_cast hits_le_total scr t x y

/-- A concrete instantiation of `C1_match_contract`: a 2×1 all-zero template on
a blank 4-wide screenshot scores `0` when hanging off the right edge and
`hits/total = 1` when fully inside. -/
theorem C1_match_contract_witness :
    matchScore ⟨4, fun _ _ => 0⟩ ⟨2, 1, fun _ _ => 0, []⟩ 3 0 = 0 ∧
    matchScore ⟨4, fun _ _ => 0⟩ ⟨2, 1, fun _ _ => 0, []⟩ 1 0 =
      (specHits ⟨4, fun _ _ => 0⟩ ⟨2, 1, fun _ _ => 0, []⟩ 1 0 : ℚ) / ((1 * 2 : Nat) : ℚ) := by
  constructor
  · exact (C1_match_contract ⟨4, fun _ _ => 0⟩ ⟨2, 1, fun _ _ => 0, []⟩ 3 0).1 (by left; decide)
  · exact (C1_match_contract ⟨4, fun _ _ => 0⟩ ⟨2, 1, fun _ _ => 0, []⟩ 1 0).2.1 (by
      push_neg
      refine ⟨by decide, by decide, by decide, by decide⟩)

/-- Source: the `set_pixel` lambda in `draw_text` (main.cpp:161-166).  The
destination row is an `Int` (the source computes `ascending_height -
bitmap_origin_y` in signed arithmetic); a negative row wraps to a huge
`uint32_t` in the source and fails the `height > y` guard, which is the
`0 ≤ y` conjunct here.  The stored value is the attenuated intensity. -/
def set_pixel (w h : Nat) (pix : Nat → Nat → Nat) (x : Nat) (y : Int) (v : Nat) :
    Nat → Nat → Nat :=
  if x < w ∧ 0 ≤ y ∧ y < (h : Int) then
    fun p q => if p = x ∧ (q : Int) = y then v else pix p q
  else pix

/-- The inner `x` loop of the glyph blit in `draw_text` (main.cpp:169-171)
for bitmap row `y`: writes `pixels[x + y * bitmap_width] * 3 / 4` to
`(x_cursor + x, y + bitmap_y)`. -/
def drawGlyphRow (pool : Nat → Nat) (w h : Nat) (c : FontCharacter) (xc : Nat)
    (bmy : Int) (y : Nat) (pix : Nat → Nat → Nat) : Nat → Nat → Nat :=
  (List.range c.bitmap_width).foldl
    (fun p x =>
      set_pixel w h p (xc + x) ((y : Int) + bmy)
        (pool (c.pixels_offset + (x + y * c.bitmap_width)) * 3 / 4)) pix

/-- The outer `y` loop of the glyph blit in `draw_text` (main.cpp:168-172). -/
def drawGlyph (pool : Nat → Nat) (w h : Nat) (c : FontCharacter) (xc : Nat)
    (bmy : Int) (pix : Nat → Nat → Nat) : Nat → Nat → Nat :=
  (List.range c.bitmap_height).foldl
    (fun p y => drawGlyphRow pool w h c xc bmy y p) pix

/-- One iteration of the character loop of `draw_text` (main.cpp:152-175):
blit the glyph when its bitmap is non-degenerate, then advance the cursor by
the character's advance width. -/
def drawChar (font : Font) (pool : Nat → Nat) (w h : Nat)
    (st : (Nat → Nat → Nat) × Nat) (c : FontCharacter) : (Nat → Nat → Nat) × Nat :=
  let bmy : Int := (font.ascending_height : Int) - (c.bitmap_origin_y : Int)
  ((if 0 < c.bitmap_width ∧ 0 < c.bitmap_height then
      drawGlyph pool w h c st.2 bmy st.1
    else st.1),
   st.2 + c.character_width)

/-- Source: `draw_text` (main.cpp:134-178).  `text` is the list of byte codes
of the C string; `chars` is the 256-slot metrics table (codes absent from the
font resource hold the zero-initialised record). -/
def draw_text (text : List Nat) (pool : Nat → Nat) (chars : Nat → FontCharacter)
    (font : Font) : MonochromeImage :=
  let cs := text.map chars
  let h := font.ascending_height + font.descending_height
  let w := cs.foldl (fun acc c => acc + c.character_width) 0
  ⟨w, h, (cs.foldl (drawChar font pool w h) (fun _ _ => 0, 0)).1, text⟩

lemma foldl_width (l : List FontCharacter) (a : Nat) :
    l.foldl (fun acc c => acc + c.character_width) a
      = a + (l.map (fun c => c.character_width)).sum := by
  induction l generalizing a with
  | nil => simp
  | cons c t ih => simp [ih, Nat.add_assoc]

/-- Claim C4: every image produced by `draw_text` has height
`ascending_height + descending_height` and width the sum of the advance
widths of the characters of its string; consequently the width of a
rasterized string equals the sum of the widths obtained by rasterizing each
of its characters alone. -/
theorem C4_draw_text_dimensions (text : List Nat) (pool : Nat → Nat)
    (chars : Nat → FontCharacter) (font : Font) :
    (draw_text text pool chars font).height
        = font.ascending_height + font.descending_height ∧
    (draw_text text pool chars font).width
        = (text.map fun b => (chars b).character_width).sum ∧
    (draw_text text pool chars font).width
        = (text.map fun b => (draw_text [b] pool chars font).width).sum := by
  refine ⟨rfl, ?_, ?_⟩
  · show (text.map chars).foldl (fun acc c => acc + c.character_width) 0 = _
    rw [foldl_width, Nat.zero_add, List.map_map]
    rfl
  · show (text.map chars).foldl (fun acc c => acc + c.character_width) 0 = _
    rw [foldl_width, Nat.zero_add, List.map_map]
    congr 1
    apply List.map_congr_left
    intro b _
    show (chars b).character_width = (draw_text [b] pool chars font).width
    show (chars b).character_width
        = ([b].map chars).foldl (fun acc c => acc + c.character_width) 0
    simp


lemma foldl_set_pixel_frame (w h xc : Nat) (dy : Int) (v : Nat → Nat) (n : Nat)
    (pix : Nat → Nat → Nat) (p q : Nat)
    (hpq : p < xc ∨ xc + n ≤ p ∨ w ≤ p ∨ (q : Int) ≠ dy ∨ dy < 0 ∨ (h : Int) ≤ dy) :
    (List.range n).foldl (fun pp xx => set_pixel w h pp (xc + xx) dy (v xx)) pix p q
      = pix p q := by
  induction n generalizing pix with
  | zero => simp
  | succ n ih =>
      rw [List.range_succ, List.foldl_append, List.foldl_cons, List.foldl_nil]
      have hstep : ∀ pp : Nat → Nat → Nat,
          set_pixel w h pp (xc + n) dy (v n) p q = pp p q := by
        intro pp
        unfold set_pixel
        split
        · rename_i hg
          have hne : ¬(p = xc + n ∧ (q : Int) = dy) := by
            rintro ⟨h1, h2⟩
            rcases hpq with h3 | h3 | h3 | h3 | h3 | h3
            · omega
            · omega
            · exact absurd hg.1 (by omega)
            · exact h3 h2
            · exact absurd hg.2.1 (by omega)
            · exact absurd hg.2.2 (by omega)
          simp [hne]
        · rfl
      rw [hstep]
      apply ih
      rcases hpq with h3 | h3 | h3 | h3 | h3 | h3
      · exact Or.inl h3
      · exact Or.inr (Or.inl (by omega))
      · exact Or.inr (Or.inr (Or.inl h3))
      · exact Or.inr (Or.inr (Or.inr (Or.inl h3)))
      · exact Or.inr (Or.inr (Or.inr (Or.inr (Or.inl h3))))
      · exact Or.inr (Or.inr (Or.inr (Or.inr (Or.inr h3))))

lemma foldl_set_pixel_write (w h xc : Nat) (dy : Int) (v : Nat → Nat) (n : Nat)
    (pix : Nat → Nat → Nat) (x : Nat) (hx : x < n) (hw : xc + x < w)
    (h0 : 0 ≤ dy) (hh : dy < (h : Int)) :
    (List.range n).foldl (fun pp xx => set_pixel w h pp (xc + xx) dy (v xx)) pix
        (xc + x) dy.toNat = v x := by
  induction n generalizing pix with
  | zero => omega
  | succ n ih =>
      rw [List.range_succ, List.foldl_append, List.foldl_cons, List.foldl_nil]
      rcases Nat.lt_or_ge x n with hlt | hge
      · have hstep : ∀ pp : Nat → Nat → Nat,
            set_pixel w h pp (xc + n) dy (v n) (xc + x) dy.toNat = pp (xc + x) dy.toNat := by
          intro pp
          unfold set_pixel
          split
          · show (if xc + x = xc + n ∧ ((dy.toNat : Int) = dy) then v n
                else pp (xc + x) dy.toNat) = pp (xc + x) dy.toNat
            rw [if_neg]
            rintro ⟨h1, -⟩
            omega
          · rfl
        rw [hstep]
        exact ih pix hlt
      · have hxn : x = n := by omega
        subst hxn
        unfold set_pixel
        rw [if_pos ⟨hw, h0, hh⟩]
        simp [Int.toNat_of_nonneg h0]

lemma drawGlyphRow_frame (pool : Nat → Nat) (w h : Nat) (c : FontCharacter)
    (xc : Nat) (bmy : Int) (y : Nat) (pix : Nat → Nat → Nat) (p q : Nat)
    (hpq : p < xc ∨ xc + c.bitmap_width ≤ p ∨ w ≤ p ∨
      (q : Int) ≠ (y : Int) + bmy ∨ (y : Int) + bmy < 0 ∨ (h : Int) ≤ (y : Int) + bmy) :
    drawGlyphRow pool w h c xc bmy y pix p q = pix p q :=
  foldl_set_pixel_frame w h xc ((y : Int) + bmy)
    (fun xx => pool (c.pixels_offset + (xx + y * c.bitmap_width)) * 3 / 4)
    c.bitmap_width pix p q hpq

lemma drawGlyphRow_write (pool : Nat → Nat) (w h : Nat) (c : FontCharacter)
    (xc : Nat) (bmy : Int) (y : Nat) (pix : Nat → Nat → Nat) (x : Nat)
    (hx : x < c.bitmap_width) (hw : xc + x < w)
    (h0 : 0 ≤ (y : Int) + bmy) (hh : (y : Int) + bmy < (h : Int)) :
    drawGlyphRow pool w h c xc bmy y pix (xc + x) ((y : Int) + bmy).toNat
      = pool (c.pixels_offset + (x + y * c.bitmap_width)) * 3 / 4 :=
  foldl_set_pixel_write w h xc ((y : Int) + bmy)
    (fun xx => pool (c.pixels_offset + (xx + y * c.bitmap_width)) * 3 / 4)
    c.bitmap_width pix x hx hw h0 hh

lemma foldl_rows_frame (pool : Nat → Nat) (w h : Nat) (c : FontCharacter)
    (xc : Nat) (bmy : Int) (n : Nat) (pix : Nat → Nat → Nat) (p q : Nat)
    (hpq : p < xc ∨ xc + c.bitmap_width ≤ p ∨ w ≤ p ∨ h ≤ q ∨
      ∀ y : Nat, y < n → (q : Int) ≠ (y : Int) + bmy) :
    (List.range n).foldl (fun pp y => drawGlyphRow pool w h c xc bmy y pp) pix p q
      = pix p q := by
  induction n generalizing pix with
  | zero => simp
  | succ n ih =>
      rw [List.range_succ, List.foldl_append, List.foldl_cons, List.foldl_nil]
      rw [drawGlyphRow_frame]
      · apply ih
        rcases hpq with h3 | h3 | h3 | h3 | h3
        · exact Or.inl h3
        · exact Or.inr (Or.inl h3)
        · exact Or.inr (Or.inr (Or.inl h3))
        · exact Or.inr (Or.inr (Or.inr (Or.inl h3)))
        · exact Or.inr (Or.inr (Or.inr (Or.inr fun y hy => h3 y (by omega))))
      · rcases hpq with h3 | h3 | h3 | h3 | h3
        · exact Or.inl h3
        · exact Or.inr (Or.inl h3)
        · exact Or.inr (Or.inr (Or.inl h3))
        · by_cases hq : (q : Int) = (n : Int) + bmy
          · exact Or.inr (Or.inr (Or.inr (Or.inr (Or.inr (by omega)))))
          · exact Or.inr (Or.inr (Or.inr (Or.inl hq)))
        · exact Or.inr (Or.inr (Or.inr (Or.inl (h3 n (Nat.lt_succ_self n)))))

lemma foldl_rows_write (pool : Nat → Nat) (w h : Nat) (c : FontCharacter)
    (xc : Nat) (bmy : Int) (n : Nat) (pix : Nat → Nat → Nat) (x y : Nat)
    (hx : x < c.bitmap_width) (hy : y < n) (hw : xc + x < w)
    (h0 : 0 ≤ (y : Int) + bmy) (hh : (y : Int) + bmy < (h : Int)) :
    (List.range n).foldl (fun pp yy => drawGlyphRow pool w h c xc bmy yy pp) pix
        (xc + x) ((y : Int) + bmy).toNat
      = pool (c.pixels_offset + (x + y * c.bitmap_width)) * 3 / 4 := by
  induction n generalizing pix with
  | zero => omega
  | succ n ih =>
      rw [List.range_succ, List.foldl_append, List.foldl_cons, List.foldl_nil]
      rcases Nat.lt_or_ge y n with hlt | hge
      · rw [drawGlyphRow_frame]
        · exact ih pix hlt
        · refine Or.inr (Or.inr (Or.inr (Or.inl ?_)))
          rw [Int.toNat_of_nonneg h0]
          omega
      · have hyn : y = n := by omega
        subst hyn
        exact drawGlyphRow_write pool w h c xc bmy y _ x hx hw h0 hh

/-- Claim C5: one step of the `draw_text` character loop.  The cursor advances
by the character's advance width whether or not any ink was drawn; a character
with a degenerate bitmap (in particular the zero-metrics slot of an unknown
character code) draws nothing; each bitmap pixel lands at
`(x_cursor + x, (ascending_height − bitmap_origin_y) + y)` with intensity
`pool value × 3 / 4` in integer arithmetic; and every cell of the output that
is not an in-bounds destination of the glyph rectangle is left unchanged
(destinations outside the output bounds are silently dropped). -/
theorem C5_draw_text_step (font : Font) (pool : Nat → Nat) (w h : Nat)
    (pix : Nat → Nat → Nat) (xc : Nat) (c : FontCharacter) :
    ((drawChar font pool w h (pix, xc) c).2 = xc + c.character_width) ∧
    (c.bitmap_width = 0 ∨ c.bitmap_height = 0 →
      (drawChar font pool w h (pix, xc) c).1 = pix) ∧
    (∀ x y : Nat, x < c.bitmap_width → y < c.bitmap_height →
      xc + x < w →
      0 ≤ (y : Int) + ((font.ascending_height : Int) - (c.bitmap_origin_y : Int)) →
      (y : Int) + ((font.ascending_height : Int) - (c.bitmap_origin_y : Int)) < (h : Int) →
      (drawChar font pool w h (pix, xc) c).1 (xc + x)
          ((y : Int) + ((font.ascending_height : Int) - (c.bitmap_origin_y : Int))).toNat
        = pool (c.pixels_offset + (x + y * c.bitmap_width)) * 3 / 4) ∧
    (∀ p q : Nat,
      (p < xc ∨ xc + c.bitmap_width ≤ p ∨ w ≤ p ∨ h ≤ q ∨
        ∀ y : Nat, y < c.bitmap_height →
          (q : Int) ≠ (y : Int) + ((font.ascending_height : Int) - (c.bitmap_origin_y : Int))) →
      (drawChar font pool w h (pix, xc) c).1 p q = pix p q) := by
  refine ⟨rfl, ?_, ?_, ?_⟩
  · intro hdeg
    unfold drawChar
    have : ¬(0 < c.bitmap_width ∧ 0 < c.bitmap_height) := by omega
    simp [this]
  · intro x y hx hy hw h0 hh
    unfold drawChar
    have hpos : 0 < c.bitmap_width ∧ 0 < c.bitmap_height := by omega
    simp only [hpos, and_self, if_true]
    exact foldl_rows_write pool w h c xc _ c.bitmap_height pix x y hx hy hw h0 hh
  · intro p q hpq
    unfold drawChar
    by_cases hpos : 0 < c.bitmap_width ∧ 0 < c.bitmap_height
    · simp only [hpos, and_self, if_true]
      exact foldl_rows_frame pool w h c xc _ c.bitmap_height pix p q hpq
    · simp [hpos]

/-- A concrete instantiation of `C5_draw_text_step`: a 1×1 glyph with advance
width 2, origin row 0, pool offset 5 holding intensity 200, drawn at cursor 0
into a 2×2 image: the cursor moves to 2 and the pixel at `(0, 1)` becomes
`200 * 3 / 4 = 150`, while `(1, 1)` keeps its old value. -/
theorem C5_draw_text_step_witness :
    (drawChar ⟨1, 0⟩ (fun i => if i = 5 then 200 else 0) 2 2 (fun _ _ => 0, 0)
        ⟨2, 1, 1, 0, 0, 5⟩).2 = 2 ∧
    (drawChar ⟨1, 0⟩ (fun i => if i = 5 then 200 else 0) 2 2 (fun _ _ => 0, 0)
        ⟨2, 1, 1, 0, 0, 5⟩).1 0 1 = 150 ∧
    (drawChar ⟨1, 0⟩ (fun i => if i = 5 then 200 else 0) 2 2 (fun _ _ => 0, 0)
        ⟨2, 1, 1, 0, 0, 5⟩).1 1 1 = 0 := by
  have h := C5_draw_text_step ⟨1, 0⟩ (fun i => if i = 5 then 200 else 0) 2 2
    (fun _ _ => 0) 0 ⟨2, 1, 1, 0, 0, 5⟩
  refine ⟨h.1, ?_, ?_⟩
  · have h3 := h.2.2.1 0 0 (by decide) (by decide) (by decide) (by decide) (by decide)
    simpa using h3
  · have h4 := h.2.2.2 1 1 (Or.inr (Or.inl (by decide)))
    simpa using h4

lemma sum_map_const_range (n w : Nat) :
    ((List.range n).map (fun _ => w)).sum = n * w := by
  induction n with
  | zero => simp
  | succ n ih =>
      rw [List.range_succ, List.map_append, List.sum_append, Nat.succ_mul]
      simp [ih]

lemma matchScore_nonneg (scr : Screenshot) (t : MonochromeImage) (x y : Nat) :
    0 ≤ matchScore scr t x y := by
  unfold matchScore
  split
  · exact le_refl 0
  · positivity

lemma matchScore_le_one (scr : Screenshot) (t : MonochromeImage) (x y : Nat) :
    matchScore scr t x y ≤ 1 := by
  unfold matchScore
  split
  · exact zero_le_one
  · rcases Nat.eq_zero_or_pos (t.height * t.width) with h0 | h0
    · simp [h0]
    · rw [div_le_one (by exact_mod_cast h0)]
      exact_mod_cast hits_le_total scr t x y

/-- When the guard passes and every aligned pixel pair differs by less than
`0x10`, the match ratio is exactly `1`. -/
lemma matchScore_eq_one (scr : Screenshot) (t : MonochromeImage) (x y : Nat)
    (hg : ¬(x + t.width > scr.width ∨ y + t.height > 480 ∨ t.width = 0 ∨ t.height = 0))
    (hall : ∀ tx ty : Nat, tx < t.width → ty < t.height →
      ((t.pix tx ty : Int) - (scr.pix (tx + x) (ty + y) : Int)).natAbs < 0x10) :
    matchScore scr t x y = 1 := by
  have hrow : ∀ ty : Nat, ty < t.height → hitRow scr t x y ty = t.width := by
    intro ty hty
    unfold hitRow
    have hcnt : (List.range t.width).countP
        (fun tx => decide (((t.pix tx ty : Int) - (scr.pix (tx + x) (ty + y) : Int)).natAbs < 0x10))
        = (List.range t.width).length := by
      rw [List.countP_eq_length]
      intro tx htx
      rw [List.mem_range] at htx
      simpa using hall tx ty htx hty
    rw [hcnt, List.length_range]
  have hsum : ((List.range t.height).map (hitRow scr t x y)).sum = t.height * t.width := by
    rw [List.map_congr_left (fun ty hty => hrow ty (List.mem_range.mp hty))]
    exact sum_map_const_range _ _
  unfold matchScore
  rw [if_neg hg, hsum]
  have hne : ((t.height * t.width : Nat) : ℚ) ≠ 0 := by
    push_neg at hg
    have := hg.2.2.1
    have := hg.2.2.2
    exact_mod_cast Nat.mul_ne_zero (by omega) (by omega)
  exact div_self hne

/-- The running best state of the header scan in `find_header_text`
(main.cpp:311-322): best percentage so far and the position where it was
found (`found_x`/`found_y` start out unspecified in the source; the model
starts them at `0`). -/
structure ScanState where
  found_percent : ℚ
  found_x : Nat
  found_y : Nat

/-- One iteration of the scan loop of `find_header_text` (main.cpp:313-322):
record the position strictly improving the best percentage. -/
def scanStep (scr : Screenshot) (t : MonochromeImage) (st : ScanState)
    (p : Nat × Nat) : ScanState :=
  let mp := matchScore scr t p.1 p.2
  if st.found_percent < mp then ⟨mp, p.1, p.2⟩ else st

/-- The scan window of `find_header_text`, in loop order: `y` outer from
`min_y` for `line_height_search` rows, `x` inner from `min_x` to the image's
right edge (main.cpp:313-314). -/
def scanWindow (width min_x min_y lh : Nat) : List (Nat × Nat) :=
  (List.range' min_y lh).flatMap fun y =>
    (List.range' min_x (width - min_x)).map fun x => (x, y)

/-- The drawn, thresholded header template (main.cpp:308-309). -/
def headerTemplate (pool : Nat → Nat) (chars : Nat → FontCharacter) (font : Font)
    (text : List Nat) : MonochromeImage :=
  filterImage (draw_text text pool chars font)

/-- The scan part of `find_header_text` (main.cpp:308-322).  The source's
`line_height_search` is `font.ascending_height` (main.cpp:305). -/
def header_scan (scr : Screenshot) (pool : Nat → Nat) (chars : Nat → FontCharacter)
    (font : Font) (text : List Nat) (min_x min_y : Nat) : ScanState :=
  (scanWindow scr.width min_x min_y font.ascending_height).foldl
    (scanStep scr (headerTemplate pool chars font text)) ⟨0, 0, 0⟩

/-- Source: `find_header_text` (main.cpp:307-328).  `none` models the fatal
`std::exit(EXIT_FAILURE)` taken when the best match percentage over the scan
window is below `0.85` (the source also prints the best-guess location and
score before exiting); `some` returns the found anchor position. -/
def find_header_text (scr : Screenshot) (pool : Nat → Nat)
    (chars : Nat → FontCharacter) (font : Font) (text : List Nat)
    (min_x min_y : Nat) : Option (Nat × Nat) :=
  let st := header_scan scr pool chars font text min_x min_y
  if st.found_percent < (17 : ℚ) / 20 then none else some (st.found_x, st.found_y)

lemma scanFold_spec (scr : Screenshot) (t : MonochromeImage)
    (l : List (Nat × Nat)) (st0 : ScanState) :
    st0.found_percent ≤ (l.foldl (scanStep scr t) st0).found_percent ∧
    (∀ p ∈ l, matchScore scr t p.1 p.2 ≤ (l.foldl (scanStep scr t) st0).found_percent) ∧
    (l.foldl (scanStep scr t) st0 = st0 ∨
      ∃ p ∈ l, (l.foldl (scanStep scr t) st0).found_percent = matchScore scr t p.1 p.2 ∧
        (l.foldl (scanStep scr t) st0).found_x = p.1 ∧
        (l.foldl (scanStep scr t) st0).found_y = p.2 ∧
        st0.found_percent < (l.foldl (scanStep scr t) st0).found_percent) := by
  induction l generalizing st0 with
  | nil => simp
  | cons p l ih =>
      rw [List.foldl_cons]
      obtain ⟨ih1, ih2, ih3⟩ := ih (scanStep scr t st0 p)
      have hstep : st0.found_percent ≤ (scanStep scr t st0 p).found_percent ∧
          matchScore scr t p.1 p.2 ≤ (scanStep scr t st0 p).found_percent ∧
          ((scanStep scr t st0 p) = st0 ∨
            ((scanStep scr t st0 p).found_percent = matchScore scr t p.1 p.2 ∧
             (scanStep scr t st0 p).found_x = p.1 ∧
             (scanStep scr t st0 p).found_y = p.2 ∧
             st0.found_percent < (scanStep scr t st0 p).found_percent)) := by
        simp only [scanStep]
        split
        · rename_i hlt
          exact ⟨le_of_lt hlt, le_refl _, Or.inr ⟨rfl, rfl, rfl, hlt⟩⟩
        · rename_i hge
          exact ⟨le_refl _, le_of_not_lt hge, Or.inl rfl⟩
      refine ⟨le_trans hstep.1 ih1, ?_, ?_⟩
      · intro q hq
        rcases List.mem_cons.mp hq with hq | hq
        · subst hq
          exact le_trans hstep.2.1 ih1
        · exact ih2 q hq
      · rcases ih3 with h3 | ⟨q, hq, h3⟩
        · rw [h3]
          rcases hstep.2.2 with h4 | h4
          · exact Or.inl h4
          · exact Or.inr ⟨p, List.mem_cons_self p l, h4.1, h4.2.1, h4.2.2.1, h4.2.2.2⟩
        · refine Or.inr ⟨q, List.mem_cons_of_mem p hq, h3.1, h3.2.1, h3.2.2.1, ?_⟩
          exact lt_of_le_of_lt hstep.1 h3.2.2.2

lemma scanFold_stay (scr : Screenshot) (t : MonochromeImage) (l : List (Nat × Nat))
    (st0 : ScanState)
    (hall : ∀ p ∈ l, matchScore scr t p.1 p.2 ≤ st0.found_percent) :
    l.foldl (scanStep scr t) st0 = st0 := by
  induction l with
  | nil => rfl
  | cons p l ih =>
      rw [List.foldl_cons]
      have hstep : scanStep scr t st0 p = st0 := by
        simp only [scanStep]
        rw [if_neg (not_lt.mpr (hall p (List.mem_cons_self p l)))]
      rw [hstep]
      exact ih fun q hq => hall q (List.mem_cons_of_mem p hq)

/-- Claim C3: for every header search, the search fails fatally (modelled as
`none`, for the source's nonzero-status `std::exit` after reporting the best
guess) exactly when every position of the scan window scores below `0.85`;
when some position reaches `0.85`, the search succeeds and returns a window
position attaining the maximal score over the window, which becomes a layout
anchor. -/
theorem C3_header_threshold (scr : Screenshot) (pool : Nat → Nat)
    (chars : Nat → FontCharacter) (font : Font) (text : List Nat)
    (min_x min_y : Nat) :
    (find_header_text scr pool chars font text min_x min_y = none ↔
      ∀ p ∈ scanWindow scr.width min_x min_y font.ascending_height,
        matchScore scr (headerTemplate pool chars font text) p.1 p.2 < (17 : ℚ) / 20) ∧
    (∀ q, find_header_text scr pool chars font text min_x min_y = some q →
      q ∈ scanWindow scr.width min_x min_y font.ascending_height ∧
      (17 : ℚ) / 20 ≤ matchScore scr (headerTemplate pool chars font text) q.1 q.2 ∧
      ∀ p ∈ scanWindow scr.width min_x min_y font.ascending_height,
        matchScore scr (headerTemplate pool chars font text) p.1 p.2 ≤
          matchScore scr (headerTemplate pool chars font text) q.1 q.2) := by
  have hdef : header_scan scr pool chars font text min_x min_y
      = (scanWindow scr.width min_x min_y font.ascending_height).foldl
          (scanStep scr (headerTemplate pool chars font text)) ⟨0, 0, 0⟩ := rfl
  obtain ⟨h1, h2, h3⟩ := scanFold_spec scr (headerTemplate pool chars font text)
    (scanWindow scr.width min_x min_y font.ascending_height) ⟨0, 0, 0⟩
  rw [← hdef] at h1 h2 h3
  constructor
  · constructor
    · intro hnone p hp
      simp only [find_header_text] at hnone
      split at hnone
      · rename_i hlt
        exact lt_of_le_of_lt (h2 p hp) hlt
      · exact absurd hnone (by simp)
    · intro hall
      simp only [find_header_text]
      rw [if_pos ?_]
      rcases h3 with h3 | ⟨p, hp, hp1, -⟩
      · rw [h3]
        norm_num
      · rw [hp1]
        exact hall p hp
  · intro q hq
    simp only [find_header_text] at hq
    split at hq
    · exact absurd hq (by simp)
    · rename_i hge
      rw [not_lt] at hge
      have hq' : q = ((header_scan scr pool chars font text min_x min_y).found_x,
          (header_scan scr pool chars font text min_x min_y).found_y) :=
        (Option.some_inj.mp hq).symm
      rcases h3 with h3 | ⟨p, hp, hp1, hp2, hp3, -⟩
      · exfalso
        rw [h3] at hge
        norm_num at hge
      · have hqp : q = p := by
          rw [hq', hp2, hp3]
        subst hqp
        refine ⟨hp, ?_, ?_⟩
        · rw [← hp1]
          exact hge
        · intro p' hp'
          rw [← hp1]
          exact h2 p' hp'

/-- The five header strings, as ASCII byte lists: `"Name"`, `"Score"`,
`"Kills"`, `"Assists"`, `"Deaths"` (the source passes C string literals). -/
def nameText : List Nat := [78, 97, 109, 101]

def scoreText : List Nat := [83, 99, 111, 114, 101]

def killsText : List Nat := [75, 105, 108, 108, 115]

def assistsText : List Nat := [65, 115, 115, 105, 115, 116, 115]

def deathsText : List Nat := [68, 101, 97, 116, 104, 115]

/-- The layout anchors produced by calibration (main.cpp:299-303): the found
`(x, y)` of each of the five header searches. -/
structure Calibration where
  name_x : Nat
  name_y : Nat
  score_x : Nat
  score_y : Nat
  kills_x : Nat
  kills_y : Nat
  assists_x : Nat
  assists_y : Nat
  deaths_x : Nat
  deaths_y : Nat

/-- Source: the five `find_header_text` calls (main.cpp:331-335): `Name` is
searched from `(120, 120)`; each later header is searched from
`min_x` = the previous header's found x and `min_y = name_y - 10`. -/
def calibrate (scr : Screenshot) (pool : Nat → Nat) (chars : Nat → FontCharacter)
    (font : Font) : Option Calibration :=
  (find_header_text scr pool chars font nameText 120 120).bind fun n =>
  (find_header_text scr pool chars font scoreText n.1 (n.2 - 10)).bind fun sc =>
  (find_header_text scr pool chars font killsText sc.1 (n.2 - 10)).bind fun k =>
  (find_header_text scr pool chars font assistsText k.1 (n.2 - 10)).bind fun a =>
  (find_header_text scr pool chars font deathsText a.1 (n.2 - 10)).map fun d =>
  ⟨n.1, n.2, sc.1, sc.2, k.1, k.2, a.1, a.2, d.1, d.2⟩

/-- An all-zero glyph-pixel pool (for concrete instantiations). -/
def zeroPool : Nat → Nat := fun _ => 0

/-- A synthetic glyph table: every code has advance width 1 and no bitmap. -/
def blankChars : Nat → FontCharacter := fun _ => ⟨1, 0, 0, 0, 0, 0⟩

/-- A synthetic font with ascending height 2 and descending height 0. -/
def blankFont : Font := ⟨2, 0⟩

/-- An all-black 130-column screenshot. -/
def blankScr : Screenshot := ⟨130, fun _ _ => 0⟩

lemma foldl_drawChar_fst (font : Font) (pool : Nat → Nat) (w h : Nat)
    (cs : List FontCharacter) (hcs : ∀ c ∈ cs, c.bitmap_width = 0) :
    ∀ st : (Nat → Nat → Nat) × Nat, (cs.foldl (drawChar font pool w h) st).1 = st.1 := by
  induction cs with
  | nil => intro st; rfl
  | cons c t ih =>
      intro st
      rw [List.foldl_cons]
      rw [ih (fun c hc => hcs c (List.mem_cons_of_mem _ hc))]
      unfold drawChar
      have h0 : ¬(0 < c.bitmap_width ∧ 0 < c.bitmap_height) := by
        have := hcs c (List.mem_cons_self c t)
        omega
      simp [h0]

lemma blankTemplate_pix (text : List Nat) (pool : Nat → Nat) (font : Font) :
    ∀ x y, (headerTemplate pool blankChars font text).pix x y = 0 := by
  intro x y
  show filterPixel ((draw_text text pool blankChars font).pix x y) = 0
  have hpix : (draw_text text pool blankChars font).pix x y = 0 := by
    show ((text.map blankChars).foldl
      (drawChar font pool _ _) (fun _ _ => 0, 0)).1 x y = 0
    rw [foldl_drawChar_fst font pool _ _ _ ?_ (fun _ _ => 0, 0)]
    intro c hc
    obtain ⟨b, -, hb⟩ := List.mem_map.mp hc
    rw [← hb]
    rfl
  rw [hpix]
  rfl

lemma blankTemplate_width (text : List Nat) (pool : Nat → Nat) (font : Font) :
    (headerTemplate pool blankChars font text).width = text.length := by
  show (text.map blankChars).foldl (fun acc c => acc + c.character_width) 0 = text.length
  rw [foldl_width, Nat.zero_add, List.map_map]
  have hmap : List.map ((fun c => c.character_width) ∘ blankChars) text
      = List.map (fun _ => 1) text := by
    apply List.map_congr_left
    intro b _
    rfl
  rw [hmap]
  simp

lemma blankTemplate_height (text : List Nat) (pool : Nat → Nat) :
    (headerTemplate pool blankChars blankFont text).height = 2 := rfl

lemma scanWindow_head (width min_x min_y lh : Nat) (hx : min_x < width) (hl : 0 < lh) :
    ∃ rest, scanWindow width min_x min_y lh = (min_x, min_y) :: rest := by
  obtain ⟨k, hk⟩ : ∃ k, width - min_x = k + 1 := ⟨width - min_x - 1, by omega⟩
  obtain ⟨m, hm⟩ : ∃ m, lh = m + 1 := ⟨lh - 1, by omega⟩
  simp only [scanWindow, hm, hk, List.range'_succ, List.flatMap_cons, List.map_cons,
    List.cons_append]
  exact ⟨_, rfl⟩

/-- If the very first window position already scores a perfect `1`, the header
search succeeds there (later positions cannot strictly improve on `1`). -/
lemma find_header_first_perfect (scr : Screenshot) (pool : Nat → Nat)
    (chars : Nat → FontCharacter) (font : Font) (text : List Nat)
    (min_x min_y : Nat) (hx : min_x < scr.width) (hl : 0 < font.ascending_height)
    (h1 : matchScore scr (headerTemplate pool chars font text) min_x min_y = 1) :
    find_header_text scr pool chars font text min_x min_y = some (min_x, min_y) := by
  obtain ⟨rest, hw⟩ := scanWindow_head scr.width min_x min_y font.ascending_height hx hl
  have hscan : header_scan scr pool chars font text min_x min_y = ⟨1, min_x, min_y⟩ := by
    unfold header_scan
    rw [hw, List.foldl_cons]
    have hstep : scanStep scr (headerTemplate pool chars font text) ⟨0, 0, 0⟩ (min_x, min_y)
        = ⟨1, min_x, min_y⟩ := by
      simp only [scanStep, h1]
      norm_num
    rw [hstep]
    apply scanFold_stay
    intro p hp
    show matchScore scr (headerTemplate pool chars font text) p.1 p.2 ≤ 1
    exact matchScore_le_one scr _ p.1 p.2
  simp only [find_header_text, hscan]
  norm_num

lemma blank_match_one (text : List Nat) (min_x min_y : Nat)
    (hfit : min_x + text.length ≤ 130) (hy : min_y + 2 ≤ 480) (hne : text ≠ []) :
    matchScore blankScr (headerTemplate zeroPool blankChars blankFont text) min_x min_y
      = 1 := by
  apply matchScore_eq_one
  · rw [blankTemplate_width, blankTemplate_height]
    push_neg
    refine ⟨?_, ?_, ?_, ?_⟩
    · show min_x + text.length ≤ blankScr.width
      show min_x + text.length ≤ 130
      exact hfit
    · omega
    · simpa using hne
    · omega
  · intro tx ty htx hty
    rw [blankTemplate_pix]
    show ((0 : Int) - (blankScr.pix (tx + min_x) (ty + min_y) : Int)).natAbs < 0x10
    show ((0 : Int) - (0 : Int)).natAbs < 0x10
    decide

lemma calibrate_blank :
    calibrate blankScr zeroPool blankChars blankFont =
      some ⟨120, 120, 120, 110, 120, 110, 120, 110, 120, 110⟩ := by
  have hn := find_header_first_perfect blankScr zeroPool blankChars blankFont nameText
    120 120 (by decide) (by decide)
    (blank_match_one nameText 120 120 (by decide) (by decide) (by decide))
  have hs := find_header_first_perfect blankScr zeroPool blankChars blankFont scoreText
    120 110 (by decide) (by decide)
    (blank_match_one scoreText 120 110 (by decide) (by decide) (by decide))
  have hk := find_header_first_perfect blankScr zeroPool blankChars blankFont killsText
    120 110 (by decide) (by decide)
    (blank_match_one killsText 120 110 (by decide) (by decide) (by decide))
  have ha := find_header_first_perfect blankScr zeroPool blankChars blankFont assistsText
    120 110 (by decide) (by decide)
    (blank_match_one assistsText 120 110 (by decide) (by decide) (by decide))
  have hd := find_header_first_perfect blankScr zeroPool blankChars blankFont deathsText
    120 110 (by decide) (by decide)
    (blank_match_one deathsText 120 110 (by decide) (by decide) (by decide))
  unfold calibrate
  rw [hn, Option.some_bind]
  norm_num
  rw [hs, Option.some_bind, hk, Option.some_bind, ha, Option.some_bind, hd,
    Option.map_some']

/-- A concrete instantiation of `C3_header_threshold`: on the all-black
screenshot with the synthetic blank font, the `Name` search succeeds at
`(120, 120)` and that position scores at least `0.85`. -/
theorem C3_header_threshold_witness :
    find_header_text blankScr zeroPool blankChars blankFont nameText 120 120
      = some (120, 120) ∧
    (17 : ℚ) / 20 ≤
      matchScore blankScr (headerTemplate zeroPool blankChars blankFont nameText)
        120 120 := by
  have heq := find_header_first_perfect blankScr zeroPool blankChars blankFont nameText
    120 120 (by decide) (by decide)
    (blank_match_one nameText 120 120 (by decide) (by decide) (by decide))
  exact ⟨heq,
    ((C3_header_threshold blankScr zeroPool blankChars blankFont nameText 120 120).2
      (120, 120) heq).2.1⟩

/-- Claim C2, corrected.  The code anchors each of the four searches after
`Name` at `min_x` = the previous header's found x, but at
`min_y = name_y − 10` — the `Name` header's found y minus 10 — for all four,
not the immediately previous header's found y minus 10. -/
theorem C2_search_anchors (scr : Screenshot) (pool : Nat → Nat)
    (chars : Nat → FontCharacter) (font : Font) (cal : Calibration)
    (h : calibrate scr pool chars font = some cal) :
    find_header_text scr pool chars font nameText 120 120
      = some (cal.name_x, cal.name_y) ∧
    find_header_text scr pool chars font scoreText cal.name_x (cal.name_y - 10)
      = some (cal.score_x, cal.score_y) ∧
    find_header_text scr pool chars font killsText cal.score_x (cal.name_y - 10)
      = some (cal.kills_x, cal.kills_y) ∧
    find_header_text scr pool chars font assistsText cal.kills_x (cal.name_y - 10)
      = some (cal.assists_x, cal.assists_y) ∧
    find_header_text scr pool chars font deathsText cal.assists_x (cal.name_y - 10)
      = some (cal.deaths_x, cal.deaths_y) := by
  unfold calibrate at h
  cases hn : find_header_text scr pool chars font nameText 120 120 with
  | none => rw [hn] at h; simp at h
  | some n =>
  rw [hn, Option.some_bind] at h
  cases hs : find_header_text scr pool chars font scoreText n.1 (n.2 - 10) with
  | none => rw [hs] at h; simp at h
  | some sc =>
  rw [hs, Option.some_bind] at h
  cases hk : find_header_text scr pool chars font killsText sc.1 (n.2 - 10) with
  | none => rw [hk] at h; simp at h
  | some k =>
  rw [hk, Option.some_bind] at h
  cases ha : find_header_text scr pool chars font assistsText k.1 (n.2 - 10) with
  | none => rw [ha] at h; simp at h
  | some a =>
  rw [ha, Option.some_bind] at h
  cases hd : find_header_text scr pool chars font deathsText a.1 (n.2 - 10) with
  | none => rw [hd] at h; simp at h
  | some d =>
  rw [hd, Option.map_some'] at h
  have hcal := (Option.some_inj.mp h).symm
  subst hcal
  refine ⟨?_, ?_, ?_, ?_, ?_⟩
  · simp [hn]
  · simp [hs]
  · simp [hk]
  · simp [ha]
  · simp [hd]

/-- Counterexample to claim C2 as stated: on the all-black screenshot with the
synthetic blank font, calibration succeeds with `name_y = 120` and
`score_y = 110`, so the `Kills` search window's `min_y` — which the code takes
as `name_y − 10 = 110` (see `C2_search_anchors`) — is not the previous
(`Score`) header's found y minus 10, which would be `100`. -/
theorem C2_search_anchors_refuted :
    calibrate blankScr zeroPool blankChars blankFont
      = some ⟨120, 120, 120, 110, 120, 110, 120, 110, 120, 110⟩ ∧
    (⟨120, 120, 120, 110, 120, 110, 120, 110, 120, 110⟩ : Calibration).name_y - 10
      ≠ (⟨120, 120, 120, 110, 120, 110, 120, 110, 120, 110⟩ : Calibration).score_y - 10 :=
  ⟨calibrate_blank, by decide⟩

/-- A concrete instantiation of `C2_search_anchors` on the all-black
screenshot: the `Kills` search ran at `min_x = score_x = 120`,
`min_y = name_y − 10 = 110`. -/
theorem C2_search_anchors_witness :
    find_header_text blankScr zeroPool blankChars blankFont killsText 120 (120 - 10)
      = some (120, 110) := by
  have h := C2_search_anchors blankScr zeroPool blankChars blankFont
    ⟨120, 120, 120, 110, 120, 110, 120, 110, 120, 110⟩ calibrate_blank
  simpa using h.2.2.1

/-- Is there ink at row `y` in the rightmost column span `[deaths_x, width)`?
The inner loop of `skip_to_next_line` (main.cpp:347-352), testing the
truthiness of `monochrome_version[x + y_cursor * width]`. -/
def rowInk (scr : Screenshot) (deaths_x y : Nat) : Bool :=
  (List.range' deaths_x (scr.width - deaths_x)).any fun x => decide (scr.pix x y ≠ 0)

/-- The `while` loop of `skip_to_next_line` (main.cpp:343-357): advance one
pixel at a time while the cursor is above row 480 and the current row has
ink.  The guard `y_cursor < 480` bounds the iteration count by 480, so fuel
480 makes the model total and exact. -/
def skipAux (scr : Screenshot) (deaths_x : Nat) : Nat → Nat → Nat
  | 0, y => y
  | fuel + 1, y =>
      if y < 480 ∧ rowInk scr deaths_x y = true then skipAux scr deaths_x fuel (y + 1)
      else y

/-- Source: `skip_to_next_line` (main.cpp:340-358): step down by half the
search line height (`line_height_search`, which main.cpp:305 sets to the
font's `ascending_height`), then skip past rows that still have ink. -/
def skip_to_next_line (scr : Screenshot) (deaths_x lh y_cursor : Nat) : Nat :=
  skipAux scr deaths_x 480 (y_cursor + lh / 2)

/-- The end-of-table presence check of the row loop (main.cpp:395-400),
ignoring buffer bounds: is there ink anywhere in rows
`[y_cursor, y_cursor + lh)` of the span `[deaths_x, width)`? -/
def found_something (scr : Screenshot) (deaths_x lh y_cursor : Nat) : Bool :=
  (List.range' y_cursor lh).any fun y =>
    (List.range' deaths_x (scr.width - deaths_x)).any fun x => decide (0 < scr.pix x y)

lemma skipAux_spec (scr : Screenshot) (dx : Nat) :
    ∀ fuel start, 480 - start ≤ fuel →
      start ≤ skipAux scr dx fuel start ∧
      (∀ y, start ≤ y → y < skipAux scr dx fuel start →
        y < 480 ∧ rowInk scr dx y = true) ∧
      (480 ≤ skipAux scr dx fuel start ∨
        rowInk scr dx (skipAux scr dx fuel start) = false) := by
  intro fuel
  induction fuel with
  | zero =>
      intro start hfuel
      have h0 : skipAux scr dx 0 start = start := rfl
      rw [h0]
      refine ⟨le_refl _, ?_, Or.inl (by omega)⟩
      intro y hy1 hy2
      exact absurd (lt_of_le_of_lt hy1 hy2) (lt_irrefl start)
  | succ n ih =>
      intro start hfuel
      by_cases hc : start < 480 ∧ rowInk scr dx start = true
      · have hstep : skipAux scr dx (n + 1) start = skipAux scr dx n (start + 1) := by
          show (if start < 480 ∧ rowInk scr dx start = true
            then skipAux scr dx n (start + 1) else start) = skipAux scr dx n (start + 1)
          rw [if_pos hc]
        obtain ⟨ih1, ih2, ih3⟩ := ih (start + 1) (by omega)
        rw [hstep]
        refine ⟨by omega, ?_, ih3⟩
        intro y hy1 hy2
        rcases Nat.eq_or_lt_of_le hy1 with heq | hlt
        · rw [← heq]
          exact hc
        · exact ih2 y hlt hy2
      · have hstep : skipAux scr dx (n + 1) start = start := by
          show (if start < 480 ∧ rowInk scr dx start = true
            then skipAux scr dx n (start + 1) else start) = start
          rw [if_neg hc]
        rw [hstep]
        refine ⟨le_refl _, ?_, ?_⟩
        · intro y hy1 hy2
          exact absurd (lt_of_le_of_lt hy1 hy2) (lt_irrefl start)
        · rcases not_and_or.mp hc with h1 | h1
          · exact Or.inl (by omega)
          · exact Or.inr (by simpa using h1)

lemma found_something_false_iff (scr : Screenshot) (dx lh y0 : Nat) :
    found_something scr dx lh y0 = false ↔
      ∀ y, y0 ≤ y → y < y0 + lh →
        ∀ x, dx ≤ x → x < scr.width → scr.pix x y = 0 := by
  unfold found_something
  simp only [List.any_eq_false, Bool.not_eq_true, List.mem_range'_1,
    decide_eq_false_iff_not, not_lt, Nat.le_zero]
  constructor
  · intro h y hy1 hy2 x hx1 hx2
    exact h y ⟨hy1, hy2⟩ x ⟨hx1, by omega⟩
  · intro h y hy x hx
    exact h y hy.1 hy.2 x hx.1 (by omega)

/-- Claim C7, corrected: the vertical step and the row-search span use
`line_height_search = ascending_height` alone, not
`ascending_height + descending_height`.  With that correction: the cursor
advances by half the (search) line height and then one pixel at a time while
the row at the cursor has ink in `[deaths_x, width)`, stopping at the first
blank row (or row 480); the presence check scans that span across
`ascending_height` rows and reports no ink exactly when every scanned pixel
is zero (which is the row loop's exit condition). -/
theorem C7_row_segmentation (scr : Screenshot) (deaths_x : Nat) (font : Font)
    (y0 : Nat) :
    skip_to_next_line scr deaths_x font.ascending_height y0
      = skipAux scr deaths_x 480 (y0 + font.ascending_height / 2) ∧
    (∀ start, start ≤ skipAux scr deaths_x 480 start ∧
      (∀ y, start ≤ y → y < skipAux scr deaths_x 480 start →
        y < 480 ∧ rowInk scr deaths_x y = true) ∧
      (480 ≤ skipAux scr deaths_x 480 start ∨
        rowInk scr deaths_x (skipAux scr deaths_x 480 start) = false)) ∧
    (found_something scr deaths_x font.ascending_height y0 = false ↔
      ∀ y, y0 ≤ y → y < y0 + font.ascending_height →
        ∀ x, deaths_x ≤ x → x < scr.width → scr.pix x y = 0) := by
  refine ⟨rfl, ?_, found_something_false_iff scr deaths_x font.ascending_height y0⟩
  intro start
  exact skipAux_spec scr deaths_x 480 start (by omega)

/-- Counterexample to claim C7 as stated: with ascending height 10 and
descending height 4, the cursor steps by `10 / 2 = 5`, not `(10 + 4) / 2 = 7`
(shown on an all-blank screenshot, where the skip stops immediately after the
initial step), and the presence check spans only 10 rows, missing ink on row
112 that a 14-row span would find. -/
theorem C7_row_segmentation_refuted :
    skip_to_next_line blankScr 120 (Font.mk 10 4).ascending_height 100
      ≠ skipAux blankScr 120 480
          (100 + ((Font.mk 10 4).ascending_height + (Font.mk 10 4).descending_height) / 2) ∧
    found_something ⟨130, fun x y => if x = 129 ∧ y = 112 then 255 else 0⟩ 120
      (Font.mk 10 4).ascending_height 100 = false ∧
    found_something ⟨130, fun x y => if x = 129 ∧ y = 112 then 255 else 0⟩ 120
      ((Font.mk 10 4).ascending_height + (Font.mk 10 4).descending_height) 100 = true := by
  refine ⟨?_, ?_, ?_⟩ <;> decide

/-- A concrete instantiation of `C7_row_segmentation`: on the all-black
screenshot the skip stops right after the half-line step and the presence
check reports an empty table. -/
theorem C7_row_segmentation_witness :
    skip_to_next_line blankScr 120 blankFont.ascending_height 100
      = skipAux blankScr 120 480 (100 + blankFont.ascending_height / 2) ∧
    100 ≤ skipAux blankScr 120 480 100 ∧
    found_something blankScr 120 blankFont.ascending_height 100 = false := by
  have h := C7_row_segmentation blankScr 120 blankFont 100
  refine ⟨h.1, (h.2.1 100).1, h.2.2.mpr ?_⟩
  intro y hy1 hy2 x hx1 hx2
  rfl

/-- The end-of-table presence check of the row loop (main.cpp:395-400) with
bounds-checked buffer reads.  The source reads
`monochrome_version[x + y * width]` with `x < width`, which stays inside the
`width × 480` buffer exactly when `y < 480`; the loop visits the rows
`y_cursor, y_cursor + 1, …` in order (`lh` rows in all), reads the current
row cell by cell, and stops at the first inked row.  `none` records that a
row with index `≥ 480` was read — the source's out-of-bounds access. -/
def presenceCheck (scr : Screenshot) (deaths_x : Nat) : Nat → Nat → Option Bool
  | 0, _ => some false
  | k + 1, y =>
      if y < 480 then
        if (List.range' deaths_x (scr.width - deaths_x)).any
            (fun x => decide (0 < scr.pix x y)) then some true
        else presenceCheck scr deaths_x k (y + 1)
      else none

/-- The drought scan of `string_at` (main.cpp:411-421) at one column with
bounds-checked reads: scans rows `search_y + 4, …, search_y + lh − 1` at the
given column, stopping at the first inked cell; `none` records a read of a
row `≥ 480`. -/
def droughtColCheck (scr : Screenshot) (col : Nat) : Nat → Nat → Option Bool
  | 0, _ => some false
  | k + 1, y =>
      if y < 480 then
        if 0 < scr.pix col y then some true
        else droughtColCheck scr col k (y + 1)
      else none

/-- Like `blank_match_one` but on an arbitrary screenshot that is blank on the
rectangle covered by the template. -/
lemma match_one_rect (scr : Screenshot) (text : List Nat) (min_x min_y : Nat)
    (hfit : min_x + text.length ≤ scr.width) (hy : min_y + 2 ≤ 480) (hne : text ≠ [])
    (hrect : ∀ tx ty : Nat, tx < text.length → ty < 2 →
      scr.pix (tx + min_x) (ty + min_y) = 0) :
    matchScore scr (headerTemplate zeroPool blankChars blankFont text) min_x min_y
      = 1 := by
  apply matchScore_eq_one
  · rw [blankTemplate_width, blankTemplate_height]
    push_neg
    refine ⟨hfit, by omega, by simpa using hne, by omega⟩
  · intro tx ty htx hty
    rw [blankTemplate_pix]
    rw [blankTemplate_width] at htx
    rw [blankTemplate_height] at hty
    rw [hrect tx ty htx hty]
    decide

/-- A 130-column screenshot that is blank except for an ink column at
`x = 129` on rows 121–478: every header matches perfectly in the blank
region, and the rightmost span `[120, 130)` keeps ink until row 478, so the
skip loop runs the cursor down to row 479. -/
def inkColScr : Screenshot :=
  ⟨130, fun x y => if x = 129 ∧ 121 ≤ y ∧ y ≤ 478 then 255 else 0⟩

lemma inkColScr_blank_rect (text : List Nat) (min_x min_y : Nat)
    (hx : min_x + text.length ≤ 129) :
    ∀ tx ty : Nat, tx < text.length → ty < 2 →
      inkColScr.pix (tx + min_x) (ty + min_y) = 0 := by
  intro tx ty htx hty
  show (if tx + min_x = 129 ∧ 121 ≤ ty + min_y ∧ ty + min_y ≤ 478 then 255 else 0) = 0
  rw [if_neg]
  rintro ⟨h1, h2, h3⟩
  omega

lemma calibrate_inkCol :
    calibrate inkColScr zeroPool blankChars blankFont =
      some ⟨120, 120, 120, 110, 120, 110, 120, 110, 120, 110⟩ := by
  have hn := find_header_first_perfect inkColScr zeroPool blankChars blankFont nameText
    120 120 (by decide) (by decide)
    (match_one_rect inkColScr nameText 120 120 (by decide) (by decide) (by decide)
      (inkColScr_blank_rect nameText 120 120 (by decide)))
  have hs := find_header_first_perfect inkColScr zeroPool blankChars blankFont scoreText
    120 110 (by decide) (by decide)
    (match_one_rect inkColScr scoreText 120 110 (by decide) (by decide) (by decide)
      (inkColScr_blank_rect scoreText 120 110 (by decide)))
  have hk := find_header_first_perfect inkColScr zeroPool blankChars blankFont killsText
    120 110 (by decide) (by decide)
    (match_one_rect inkColScr killsText 120 110 (by decide) (by decide) (by decide)
      (inkColScr_blank_rect killsText 120 110 (by decide)))
  have ha := find_header_first_perfect inkColScr zeroPool blankChars blankFont assistsText
    120 110 (by decide) (by decide)
    (match_one_rect inkColScr assistsText 120 110 (by decide) (by decide) (by decide)
      (inkColScr_blank_rect assistsText 120 110 (by decide)))
  have hd := find_header_first_perfect inkColScr zeroPool blankChars blankFont deathsText
    120 110 (by decide) (by decide)
    (match_one_rect inkColScr deathsText 120 110 (by decide) (by decide) (by decide)
      (inkColScr_blank_rect deathsText 120 110 (by decide)))
  unfold calibrate
  rw [hn, Option.some_bind]
  norm_num
  rw [hs, Option.some_bind, hk, Option.some_bind, ha, Option.some_bind, hd,
    Option.map_some']

/-- Claim C10 is refuted by the code: it is a latent out-of-bounds read.  On
`inkColScr` with the synthetic blank font, calibration succeeds with
`deaths_x = 120` and `name_y = 120` (so this loop state is reachable); the
first `skip_to_next_line` then advances the cursor to row 479 (rows 121–478
keep ink in the rightmost span, row 479 is blank), and the first end-of-table
presence check, scanning `line_height_search = 2` rows from 479, reads row
480 — outside the `width × 480` buffer (`presenceCheck` returns `none`). -/
theorem C10_presence_read_out_of_bounds :
    calibrate inkColScr zeroPool blankChars blankFont
      = some ⟨120, 120, 120, 110, 120, 110, 120, 110, 120, 110⟩ ∧
    skip_to_next_line inkColScr 120 blankFont.ascending_height 120 = 479 ∧
    presenceCheck inkColScr 120 blankFont.ascending_height 479 = none := by
  refine ⟨calibrate_inkCol, by decide, by decide⟩

/-- Source: `PlayerStats` (main.cpp:362-369).  The statistics are `int8_t` in
the source; the placement comparisons only need their signed values, modelled
as `Int`.  The name is kept as a byte list. -/
structure PlayerStats where
  red : Bool
  name : List Nat
  score : Int
  kills : Int
  assists : Int
  deaths : Int

def dummyPlayer : PlayerStats := ⟨false, [], 0, 0, 0, 0⟩

/-- The `CHECK_STAT` chain of the placement loop (main.cpp:576-585): does the
inner row `player_test` fall through to `players_below++` when computing
`player`'s place?  It does exactly when `player_test` beats `player` on
(score desc, kills desc, deaths asc, assists desc) or ties all four. -/
def countedAgainst (player player_test : PlayerStats) : Bool :=
  if player.score > player_test.score then false
  else if player.score < player_test.score then true
  else if player.kills > player_test.kills then false
  else if player.kills < player_test.kills then true
  else if player.deaths < player_test.deaths then false
  else if player.deaths > player_test.deaths then true
  else if player.assists > player_test.assists then false
  else if player.assists < player_test.assists then true
  else true

/-- Source: the placement loop (main.cpp:567-589): for each row in order,
count the other rows (`&player == &player_test` skips exactly the same index)
that fall through the `CHECK_STAT` chain, and record that count plus one. -/
def places (players : List PlayerStats) : List Nat :=
  (List.range players.length).map fun i =>
    ((List.range players.length).foldl (fun acc j =>
      if j = i then acc
      else if countedAgainst (players.getD i dummyPlayer) (players.getD j dummyPlayer)
        then acc + 1 else acc) 0) + 1

/-- Row `a` ranks below row `b` under the claim's pairwise comparison (score
descending, then kills descending, then deaths ascending — fewer deaths ranks
better — then assists descending), or ties `b` on all four statistics. -/
def worseOrTied (a b : PlayerStats) : Prop :=
  a.score < b.score ∨
  (a.score = b.score ∧ a.kills < b.kills) ∨
  (a.score = b.score ∧ a.kills = b.kills ∧ b.deaths < a.deaths) ∨
  (a.score = b.score ∧ a.kills = b.kills ∧ a.deaths = b.deaths ∧ a.assists < b.assists) ∨
  (a.score = b.score ∧ a.kills = b.kills ∧ a.deaths = b.deaths ∧ a.assists = b.assists)

instance (a b : PlayerStats) : Decidable (worseOrTied a b) :=
  inferInstanceAs (Decidable (a.score < b.score ∨
    (a.score = b.score ∧ a.kills < b.kills) ∨
    (a.score = b.score ∧ a.kills = b.kills ∧ b.deaths < a.deaths) ∨
    (a.score = b.score ∧ a.kills = b.kills ∧ a.deaths = b.deaths ∧ a.assists < b.assists) ∨
    (a.score = b.score ∧ a.kills = b.kills ∧ a.deaths = b.deaths ∧ a.assists = b.assists)))

/-- The placement rule exactly as claim C8 words it: each row's placement is
1 plus the number of other rows counted as ranking below it (ties on all four
statistics also counted). -/
def claimedPlaces (players : List PlayerStats) : List Nat :=
  (List.range players.length).map fun i =>
    ((List.range players.length).countP fun j =>
      decide (j ≠ i ∧
        worseOrTied (players.getD j dummyPlayer) (players.getD i dummyPlayer))) + 1

/-- Equality of the four ranking statistics. -/
def sameStats (a b : PlayerStats) : Prop :=
  a.score = b.score ∧ a.kills = b.kills ∧ a.deaths = b.deaths ∧ a.assists = b.assists

lemma countedAgainst_iff (p t : PlayerStats) :
    countedAgainst p t = true ↔ worseOrTied p t := by
  unfold countedAgainst worseOrTied
  split_ifs <;> simp <;> omega

lemma worseOrTied_congr_left (a b c : PlayerStats) (h : sameStats a b) :
    worseOrTied a c ↔ worseOrTied b c := by
  unfold worseOrTied
  rw [h.1, h.2.1, h.2.2.1, h.2.2.2]

lemma worseOrTied_self_of_sameStats (a b : PlayerStats) (h : sameStats a b) :
    worseOrTied a b := by
  right; right; right; right
  exact ⟨h.1, h.2.1, h.2.2.1, h.2.2.2⟩

lemma foldl_count (g : Nat → Bool) (i : Nat) (l : List Nat) (acc : Nat) :
    l.foldl (fun acc j => if j = i then acc else if g j then acc + 1 else acc) acc
      = acc + l.countP (fun j => decide (j ≠ i) && g j) := by
  induction l generalizing acc with
  | nil => simp
  | cons a t ih =>
      rw [List.foldl_cons, List.countP_cons, ih]
      by_cases ha : a = i
      · simp [ha]
      · by_cases hg : g a = true
        · simp [ha, hg]
          omega
        · simp [ha, hg, Bool.eq_false_iff.mpr hg]

lemma countP_range_ne (n i : Nat) (g : Nat → Bool) (hi : i < n) (hgi : g i = true) :
    (List.range n).countP (fun k => decide (k ≠ i) && g k) + 1
      = (List.range n).countP g := by
  induction n with
  | zero => omega
  | succ n ihn =>
      rw [List.range_succ, List.countP_append, List.countP_append]
      by_cases h : i = n
      · subst h
        have hzero : List.countP (fun k => decide (k ≠ i) && g k) [i] = 0 := by
          simp [List.countP_cons]
        have hone : List.countP g [i] = 1 := by
          simp [List.countP_cons, hgi]
        have hsame : List.countP (fun k => decide (k ≠ i) && g k) (List.range i)
            = List.countP g (List.range i) := by
          apply List.countP_congr
          intro k hk
          rw [List.mem_range] at hk
          simp [Nat.ne_of_lt hk]
        rw [hzero, hone, hsame]
      · have hi' : i < n := by omega
        have hlast : List.countP (fun k => decide (k ≠ i) && g k) [n]
            = List.countP g [n] := by
          have hne : n ≠ i := fun hh => h hh.symm
          simp [List.countP_cons, hne]
        rw [hlast]
        have := ihn hi'
        omega

lemma getD_map_range (n i : Nat) (f : Nat → Nat) (hi : i < n) :
    ((List.range n).map f).getD i 0 = f i := by
  rw [List.getD_eq_getElem?_getD, List.getElem?_map, List.getElem?_range hi]
  rfl

/-- Claim C8, corrected: each row's placement is 1 plus the number of *other
rows that rank above it* (strictly better under the chain score desc, kills
desc, deaths asc, assists desc) *or tie it on all four statistics* — i.e. the
count is of rows the given row is `worseOrTied` against, not of rows ranking
below it.  Fully tied rows each receive the same placement value. -/
theorem C8_places (players : List PlayerStats) (i j : Nat)
    (hi : i < players.length) (hj : j < players.length) :
    (places players).length = players.length ∧
    (places players).getD i 0 =
      1 + ((List.range players.length).countP fun k =>
        decide (k ≠ i ∧
          worseOrTied (players.getD i dummyPlayer) (players.getD k dummyPlayer))) ∧
    (sameStats (players.getD i dummyPlayer) (players.getD j dummyPlayer) →
      (places players).getD i 0 = (places players).getD j 0) := by
  have hval : ∀ m, m < players.length →
      (places players).getD m 0 = 0 + ((List.range players.length).countP
        (fun k => decide (k ≠ m) &&
          countedAgainst (players.getD m dummyPlayer) (players.getD k dummyPlayer))) + 1 := by
    intro m hm
    unfold places
    rw [getD_map_range _ _ _ hm, foldl_count]
  refine ⟨by simp [places], ?_, ?_⟩
  · rw [hval i hi]
    have hpe : ∀ k, (decide (k ≠ i) &&
        countedAgainst (players.getD i dummyPlayer) (players.getD k dummyPlayer))
        = decide (k ≠ i ∧
          worseOrTied (players.getD i dummyPlayer) (players.getD k dummyPlayer)) := by
      intro k
      by_cases hki : k = i
      · subst hki
        simp
      · by_cases hw : worseOrTied (players.getD i dummyPlayer) (players.getD k dummyPlayer)
        · have h2 : decide (k ≠ i ∧
              worseOrTied (players.getD i dummyPlayer) (players.getD k dummyPlayer))
              = true := by
            rw [decide_eq_true_eq]
            exact ⟨hki, hw⟩
          rw [(countedAgainst_iff _ _).mpr hw, h2]
          simp [hki]
        · have hac : countedAgainst (players.getD i dummyPlayer)
              (players.getD k dummyPlayer) = false := by
            rw [Bool.eq_false_iff]
            intro hc
            exact hw ((countedAgainst_iff _ _).mp hc)
          have h2 : decide (k ≠ i ∧
              worseOrTied (players.getD i dummyPlayer) (players.getD k dummyPlayer))
              = false := by
            rw [decide_eq_false_iff_not]
            exact fun hh => hw hh.2
          rw [hac, h2]
          simp
    have hpe' : ∀ k ∈ List.range players.length, ((decide (k ≠ i) &&
        countedAgainst (players.getD i dummyPlayer) (players.getD k dummyPlayer)) = true ↔
          decide (k ≠ i ∧
            worseOrTied (players.getD i dummyPlayer) (players.getD k dummyPlayer)) = true) :=
      fun k _ => by rw [hpe k]
    rw [List.countP_congr hpe']
    omega
  · intro hs
    have hgi : countedAgainst (players.getD i dummyPlayer) (players.getD i dummyPlayer)
        = true :=
      (countedAgainst_iff _ _).mpr (worseOrTied_self_of_sameStats _ _ ⟨rfl, rfl, rfl, rfl⟩)
    have hgj : countedAgainst (players.getD j dummyPlayer) (players.getD j dummyPlayer)
        = true :=
      (countedAgainst_iff _ _).mpr (worseOrTied_self_of_sameStats _ _ ⟨rfl, rfl, rfl, rfl⟩)
    have hne_i : (List.range players.length).countP
        (fun k => decide (k ≠ i) &&
          countedAgainst (players.getD i dummyPlayer) (players.getD k dummyPlayer)) + 1
        = (List.range players.length).countP
          (fun k => countedAgainst (players.getD i dummyPlayer) (players.getD k dummyPlayer)) :=
      countP_range_ne players.length i _ hi hgi
    have hne_j : (List.range players.length).countP
        (fun k => decide (k ≠ j) &&
          countedAgainst (players.getD j dummyPlayer) (players.getD k dummyPlayer)) + 1
        = (List.range players.length).countP
          (fun k => countedAgainst (players.getD j dummyPlayer) (players.getD k dummyPlayer)) :=
      countP_range_ne players.length j _ hj hgj
    have hsame : (List.range players.length).countP
        (fun k => countedAgainst (players.getD i dummyPlayer) (players.getD k dummyPlayer))
        = (List.range players.length).countP
        (fun k => countedAgainst (players.getD j dummyPlayer) (players.getD k dummyPlayer)) := by
      apply List.countP_congr
      intro k _
      by_cases hw : worseOrTied (players.getD i dummyPlayer) (players.getD k dummyPlayer)
      · have hw' : worseOrTied (players.getD j dummyPlayer) (players.getD k dummyPlayer) :=
          (worseOrTied_congr_left _ _ _ hs).mp hw
        rw [(countedAgainst_iff _ _).mpr hw, (countedAgainst_iff _ _).mpr hw']
      · have hw' : ¬worseOrTied (players.getD j dummyPlayer) (players.getD k dummyPlayer) :=
          fun hh => hw ((worseOrTied_congr_left _ _ _ hs).mpr hh)
        have h1 : countedAgainst (players.getD i dummyPlayer)
            (players.getD k dummyPlayer) = false :=
          Bool.eq_false_iff.mpr fun hc => hw ((countedAgainst_iff _ _).mp hc)
        have h2 : countedAgainst (players.getD j dummyPlayer)
            (players.getD k dummyPlayer) = false :=
          Bool.eq_false_iff.mpr fun hc => hw' ((countedAgainst_iff _ _).mp hc)
        rw [h1, h2]
    rw [hval i hi, hval j hj]
    omega

/-- Counterexample to claim C8 as stated: with two rows of scores 1 and 0, the
code gives places `[1, 2]` (it counts rows ranking *above*), while counting
rows ranking *below* (plus full ties), as the claim says, would give `[2, 1]`. -/
theorem C8_places_refuted :
    places [⟨false, [], 1, 0, 0, 0⟩, ⟨false, [], 0, 0, 0, 0⟩]
      ≠ claimedPlaces [⟨false, [], 1, 0, 0, 0⟩, ⟨false, [], 0, 0, 0, 0⟩] := by
  decide

/-- A concrete instantiation of `C8_places`: the better of two rows gets
place `1 + 0`. -/
theorem C8_places_witness :
    (places [⟨false, [], 1, 0, 0, 0⟩, ⟨false, [], 0, 0, 0, 0⟩]).getD 0 0
      = 1 + ((List.range 2).countP fun k =>
        decide (k ≠ 0 ∧ worseOrTied
          (([⟨false, [], 1, 0, 0, 0⟩, ⟨false, [], 0, 0, 0, 0⟩] : List PlayerStats).getD 0
            dummyPlayer)
          (([⟨false, [], 1, 0, 0, 0⟩, ⟨false, [], 0, 0, 0, 0⟩] : List PlayerStats).getD k
            dummyPlayer))) := by
  have h := C8_places [⟨false, [], 1, 0, 0, 0⟩, ⟨false, [], 0, 0, 0, 0⟩] 0 1
    (by decide) (by decide)
  simpa using h.2.1

/-- Ink test for one column of the drought scan of `string_at`
(main.cpp:415-420): any nonzero pixel in rows
`[search_y + 4, search_y + line_height_search)`. -/
def colInk (scr : Screenshot) (lh search_y col : Nat) : Bool :=
  (List.range' (search_y + 4) (lh - 4)).any fun y => decide (scr.pix col y ≠ 0)

/-- The drought counter after the scan loop of `string_at` (main.cpp:411-421):
walk the columns `x + 1, …, end_x − 1`, incrementing on a blank column and
resetting to zero on an inked one. -/
def stringDrought (scr : Screenshot) (lh search_x search_y end_x : Nat) : Nat :=
  (List.range' (search_x + 1) (end_x - (search_x + 1))).foldl
    (fun drought col => if colInk scr lh search_y col then 0 else drought + 1) 0

/-- The trimmed end of the live content, `max_x` (main.cpp:411-422): the final
loop counter (`end_x`, or `x + 1` when the walk is empty) minus the final
drought. -/
def stringMaxX (scr : Screenshot) (lh search_x search_y end_x : Nat) : Nat :=
  search_x + 1 + (end_x - (search_x + 1)) - stringDrought scr lh search_x search_y end_x

/-- The best-candidate state of the decoding loop of `string_at`
(main.cpp:427-430): best percentage so far, the winning candidate's source
character (`c.text[0]`) and tabulated width, and the horizontal offset it
matched at (recorded by the source but never read).  `best_character` and
`best_x` start out unspecified in the source; the model starts them at 0. -/
structure BestState where
  best_character_percent : ℚ
  best_character : Nat
  best_length : Option Nat
  best_x : Int

/-- The candidate loop body of `string_at` (main.cpp:435-447): skip a
candidate whose half-width would overshoot `max_x`, otherwise match it at the
offset position and record it when it strictly improves the best score. -/
def tryChar (scr : Screenshot) (maxX x search_y : Nat) (my mx : Int)
    (st : BestState) (c : MonochromeImage) : BestState :=
  if (x : ℚ) + (c.width : ℚ) * (1 / 2) > (maxX : ℚ) then st
  else
    let test := matchAt scr c ((x : Int) + mx) ((search_y : Int) + my)
    if st.best_character_percent < test then ⟨test, c.text.headD 0, some c.width, mx⟩
    else st

/-- The jitter values −3 … 3 of the decoding loop (main.cpp:433-434). -/
def offsetRange : List Int := [-3, -2, -1, 0, 1, 2, 3]

/-- The jitter offsets of the decoding loop (main.cpp:433-434): `my` outer
from −3 to 3, `mx` inner from −3 to 3. -/
def offsets : List (Int × Int) :=
  offsetRange.flatMap fun my => offsetRange.map fun mx => (my, mx)

/-- One round of the decoding loop of `string_at` (main.cpp:426-449): try
every candidate at every offset, keeping the single best strict improvement. -/
def pickBest (scr : Screenshot) (table : List MonochromeImage)
    (maxX x search_y : Nat) : BestState :=
  offsets.foldl (fun st p => table.foldl (tryChar scr maxX x search_y p.1 p.2) st)
    ⟨0, 0, none, 0⟩

lemma matchScore_width_pos (scr : Screenshot) (t : MonochromeImage) (x y : Nat)
    (h : 0 < matchScore scr t x y) : 0 < t.width := by
  by_contra hw
  have hw0 : t.width = 0 := by omega
  rw [matchScore, if_pos (by right; right; left; exact hw0)] at h
  exact lt_irrefl 0 h

lemma matchAt_nonneg (scr : Screenshot) (t : MonochromeImage) (x y : Int) :
    0 ≤ matchAt scr t x y := by
  unfold matchAt
  split
  · exact le_refl 0
  · exact matchScore_nonneg scr t _ _

lemma matchAt_width_pos (scr : Screenshot) (t : MonochromeImage) (x y : Int)
    (h : 0 < matchAt scr t x y) : 0 < t.width := by
  rw [matchAt] at h
  split at h
  · exact absurd h (lt_irrefl 0)
  · exact matchScore_width_pos scr t _ _ h

lemma foldl_flatMap_eq {α β σ : Type _} (l : List α) (f : α → List β)
    (g : σ → β → σ) (init : σ) :
    (l.flatMap f).foldl g init = l.foldl (fun st a => (f a).foldl g st) init := by
  induction l generalizing init with
  | nil => rfl
  | cons a t ih => rw [List.flatMap_cons, List.foldl_append, List.foldl_cons, ih]

/-- One try of the decoding loop, over the flattened (offset, candidate)
sequence in source order. -/
def tryStep (scr : Screenshot) (maxX x search_y : Nat) (st : BestState)
    (pc : (Int × Int) × MonochromeImage) : BestState :=
  tryChar scr maxX x search_y pc.1.1 pc.1.2 st pc.2

/-- The score a try would get: `match(c, x + mx, search_y + my)`. -/
def tryScore (scr : Screenshot) (x search_y : Nat)
    (pc : (Int × Int) × MonochromeImage) : ℚ :=
  matchAt scr pc.2 ((x : Int) + pc.1.2) ((search_y : Int) + pc.1.1)

/-- The skip condition of a try: `x + c.width * 0.5 > max_x`. -/
def trySkip (maxX x : Nat) (pc : (Int × Int) × MonochromeImage) : Prop :=
  (x : ℚ) + (pc.2.width : ℚ) * (1 / 2) > (maxX : ℚ)

lemma pickBest_eq_foldl_tries (scr : Screenshot) (table : List MonochromeImage)
    (maxX x search_y : Nat) :
    pickBest scr table maxX x search_y
      = ((offsets.flatMap fun p => table.map fun c => (p, c)).foldl
          (tryStep scr maxX x search_y) ⟨0, 0, none, 0⟩) := by
  unfold pickBest
  rw [foldl_flatMap_eq]
  congr 1
  funext st p
  rw [List.foldl_map]
  rfl

lemma tryFold_spec (scr : Screenshot) (maxX x search_y : Nat)
    (tries : List ((Int × Int) × MonochromeImage)) (st0 : BestState) :
    st0.best_character_percent
      ≤ (tries.foldl (tryStep scr maxX x search_y) st0).best_character_percent ∧
    (∀ pc ∈ tries, ¬trySkip maxX x pc →
      tryScore scr x search_y pc
        ≤ (tries.foldl (tryStep scr maxX x search_y) st0).best_character_percent) ∧
    ((tries.foldl (tryStep scr maxX x search_y) st0) = st0 ∨
      ∃ pc ∈ tries, ¬trySkip maxX x pc ∧
        (tries.foldl (tryStep scr maxX x search_y) st0)
          = ⟨tryScore scr x search_y pc, pc.2.text.headD 0, some pc.2.width, pc.1.2⟩ ∧
        st0.best_character_percent < tryScore scr x search_y pc) := by
  induction tries generalizing st0 with
  | nil => exact ⟨le_refl _, fun pc hpc => absurd hpc (List.not_mem_nil pc), Or.inl rfl⟩
  | cons pc l ih =>
      rw [List.foldl_cons]
      obtain ⟨ih1, ih2, ih3⟩ := ih (tryStep scr maxX x search_y st0 pc)
      have hstep : st0.best_character_percent
            ≤ (tryStep scr maxX x search_y st0 pc).best_character_percent ∧
          (¬trySkip maxX x pc → tryScore scr x search_y pc
            ≤ (tryStep scr maxX x search_y st0 pc).best_character_percent) ∧
          (tryStep scr maxX x search_y st0 pc = st0 ∨
            (¬trySkip maxX x pc ∧
              tryStep scr maxX x search_y st0 pc
                = ⟨tryScore scr x search_y pc, pc.2.text.headD 0, some pc.2.width, pc.1.2⟩ ∧
              st0.best_character_percent < tryScore scr x search_y pc)) := by
        simp only [tryStep, tryChar, tryScore, trySkip]
        by_cases hskip : (x : ℚ) + (pc.2.width : ℚ) * (1 / 2) > (maxX : ℚ)
        · rw [if_pos hskip]
          exact ⟨le_refl _, fun hns => absurd hskip hns, Or.inl rfl⟩
        · rw [if_neg hskip]
          by_cases himp : st0.best_character_percent
              < matchAt scr pc.2 ((x : Int) + pc.1.2) ((search_y : Int) + pc.1.1)
          · rw [if_pos himp]
            exact ⟨le_of_lt himp, fun _ => le_refl _, Or.inr ⟨hskip, rfl, himp⟩⟩
          · rw [if_neg himp]
            exact ⟨le_refl _, fun _ => le_of_not_lt himp, Or.inl rfl⟩
      refine ⟨le_trans hstep.1 ih1, ?_, ?_⟩
      · intro q hq hqs
        rcases List.mem_cons.mp hq with hq | hq
        · subst hq
          exact le_trans (hstep.2.1 hqs) ih1
        · exact ih2 q hq hqs
      · rcases ih3 with h3 | ⟨q, hq, hqs, h3, h3lt⟩
        · rw [h3]
          rcases hstep.2.2 with h4 | h4
          · exact Or.inl h4
          · exact Or.inr ⟨pc, List.mem_cons_self pc l, h4.1, h4.2.1, h4.2.2⟩
        · exact Or.inr ⟨q, List.mem_cons_of_mem pc hq, hqs, h3,
            lt_of_le_of_lt hstep.1 h3lt⟩

lemma mem_offsetRange_iff (v : Int) : v ∈ offsetRange ↔ (-3 ≤ v ∧ v ≤ 3) := by
  constructor
  · intro h
    simp [offsetRange] at h
    rcases h with h | h | h | h | h | h | h <;> omega
  · rintro ⟨h1, h2⟩
    interval_cases v <;> simp [offsetRange]

lemma mem_offsets_iff (p : Int × Int) :
    p ∈ offsets ↔ (-3 ≤ p.1 ∧ p.1 ≤ 3 ∧ -3 ≤ p.2 ∧ p.2 ≤ 3) := by
  unfold offsets
  rw [List.mem_flatMap]
  constructor
  · rintro ⟨my, hmy, hp⟩
    obtain ⟨mx, hmx, hpe⟩ := List.mem_map.mp hp
    rw [mem_offsetRange_iff] at hmy hmx
    rw [← hpe]
    exact ⟨hmy.1, hmy.2, hmx.1, hmx.2⟩
  · rintro ⟨h1, h2, h3, h4⟩
    refine ⟨p.1, (mem_offsetRange_iff p.1).mpr ⟨h1, h2⟩, ?_⟩
    rw [List.mem_map]
    exact ⟨p.2, (mem_offsetRange_iff p.2).mpr ⟨h3, h4⟩, Prod.mk.eta⟩

lemma mem_tries_iff (table : List MonochromeImage)
    (pc : (Int × Int) × MonochromeImage) :
    pc ∈ (offsets.flatMap fun p => table.map fun c => (p, c)) ↔
      (-3 ≤ pc.1.1 ∧ pc.1.1 ≤ 3 ∧ -3 ≤ pc.1.2 ∧ pc.1.2 ≤ 3 ∧ pc.2 ∈ table) := by
  rw [List.mem_flatMap]
  constructor
  · rintro ⟨p, hp, hpc⟩
    rw [List.mem_map] at hpc
    obtain ⟨c, hc, hpc⟩ := hpc
    have hb := (mem_offsets_iff p).mp hp
    rw [← hpc]
    exact ⟨hb.1, hb.2.1, hb.2.2.1, hb.2.2.2, hc⟩
  · rintro ⟨h1, h2, h3, h4, hc⟩
    refine ⟨pc.1, (mem_offsets_iff pc.1).mpr ⟨h1, h2, h3, h4⟩, ?_⟩
    rw [List.mem_map]
    exact ⟨pc.2, hc, Prod.mk.eta⟩

lemma pickBest_length_pos (scr : Screenshot) (table : List MonochromeImage)
    (maxX x search_y : Nat) (len : Nat)
    (h : (pickBest scr table maxX x search_y).best_length = some len) : 0 < len := by
  rw [pickBest_eq_foldl_tries] at h
  obtain ⟨-, -, hcase⟩ := tryFold_spec scr maxX x search_y
    (offsets.flatMap fun p => table.map fun c => (p, c)) ⟨0, 0, none, 0⟩
  rcases hcase with heq | ⟨pc, hmem, hns, hres, hlt⟩
  · rw [heq] at h
    exact absurd h (by simp)
  · rw [hres] at h
    have hlen : len = pc.2.width := (Option.some_inj.mp h).symm
    have hpos : (0 : ℚ) < tryScore scr x search_y pc := hlt
    have := matchAt_width_pos scr pc.2 _ _ hpos
    omega

/-- The decoding loop of `string_at` (main.cpp:426-457): while the cursor is
left of the trimmed end, pick the best candidate over all jitter offsets; if
none was recorded, stop; otherwise append the winning candidate's source
character and advance by its tabulated width.  The winner's width is positive
(`pickBest_length_pos`), so the loop terminates. -/
def string_at_loop (scr : Screenshot) (table : List MonochromeImage)
    (search_y maxX : Nat) (x : Nat) : List Nat :=
  if h : x < maxX then
    match hb : (pickBest scr table maxX x search_y).best_length with
    | none => []
    | some len =>
        (pickBest scr table maxX x search_y).best_character ::
          string_at_loop scr table search_y maxX (x + len)
  else []
termination_by maxX - x
decreasing_by
  have := pickBest_length_pos scr table maxX x search_y len hb
  omega

/-- The trailing-space strip of `string_at` (main.cpp:460-462). -/
def stripTrailingSpaces (l : List Nat) : List Nat :=
  (l.reverse.dropWhile fun b => b == 32).reverse

/-- Source: `string_at` (main.cpp:407-501) with `fix_string = false` (the
variant used for the four numeric columns; the homoglyph-correction pass
of the name column runs only when `fix_string` is set and is outside the
verified claims): trim the span with the drought scan, decode greedily,
strip trailing spaces. -/
def string_at (scr : Screenshot) (lh : Nat) (table : List MonochromeImage)
    (search_x search_y end_x : Nat) : List Nat :=
  stripTrailingSpaces
    (string_at_loop scr table search_y
      (stringMaxX scr lh search_x search_y end_x) search_x)

lemma string_at_loop_of_ge (scr : Screenshot) (table : List MonochromeImage)
    (search_y maxX x : Nat) (hx : maxX ≤ x) :
    string_at_loop scr table search_y maxX x = [] := by
  rw [string_at_loop]
  rw [dif_neg (by omega)]

lemma string_at_loop_of_none (scr : Screenshot) (table : List MonochromeImage)
    (search_y maxX x : Nat) (hx : x < maxX)
    (hb : (pickBest scr table maxX x search_y).best_length = none) :
    string_at_loop scr table search_y maxX x = [] := by
  rw [string_at_loop, dif_pos hx]
  split
  · rfl
  · rename_i len hlen
    rw [hb] at hlen
    exact absurd hlen (by simp)

lemma string_at_loop_of_some (scr : Screenshot) (table : List MonochromeImage)
    (search_y maxX x len : Nat) (hx : x < maxX)
    (hb : (pickBest scr table maxX x search_y).best_length = some len) :
    string_at_loop scr table search_y maxX x
      = (pickBest scr table maxX x search_y).best_character ::
          string_at_loop scr table search_y maxX (x + len) := by
  rw [string_at_loop, dif_pos hx]
  split
  · rename_i hnone
    rw [hb] at hnone
    exact absurd hnone (by simp)
  · rename_i len' hlen
    rw [hb] at hlen
    rw [Option.some_inj.mp hlen]

/-- Claim C6: while the cursor remains left of the trimmed end, every
candidate template is tried at every integer offset in `[-3,3] × [-3,3]`
around the cursor and row, except candidates whose half-width added to the
cursor would overshoot the trimmed end, which are skipped; the recorded best
is none exactly when no tried candidate scores above zero, and then the
decoding loop stops; otherwise the winning candidate's source character is
appended and the cursor advances by the candidate's tabulated text width
(`c.width`), not by the offset at which it matched. -/
theorem C6_string_at_decode (scr : Screenshot) (table : List MonochromeImage)
    (search_y maxX x : Nat) :
    (maxX ≤ x → string_at_loop scr table search_y maxX x = []) ∧
    ((pickBest scr table maxX x search_y).best_length = none ↔
      ∀ c ∈ table, ∀ my mx : Int, -3 ≤ my → my ≤ 3 → -3 ≤ mx → mx ≤ 3 →
        ¬((x : ℚ) + (c.width : ℚ) * (1 / 2) > (maxX : ℚ)) →
        matchAt scr c ((x : Int) + mx) ((search_y : Int) + my) = 0) ∧
    (x < maxX → (pickBest scr table maxX x search_y).best_length = none →
      string_at_loop scr table search_y maxX x = []) ∧
    (∀ len, (pickBest scr table maxX x search_y).best_length = some len →
      (∃ c ∈ table, ∃ my mx : Int, (-3 ≤ my ∧ my ≤ 3 ∧ -3 ≤ mx ∧ mx ≤ 3) ∧
        ¬((x : ℚ) + (c.width : ℚ) * (1 / 2) > (maxX : ℚ)) ∧
        len = c.width ∧
        (pickBest scr table maxX x search_y).best_character = c.text.headD 0 ∧
        (pickBest scr table maxX x search_y).best_character_percent
          = matchAt scr c ((x : Int) + mx) ((search_y : Int) + my) ∧
        0 < matchAt scr c ((x : Int) + mx) ((search_y : Int) + my)) ∧
      (∀ c ∈ table, ∀ my mx : Int, -3 ≤ my → my ≤ 3 → -3 ≤ mx → mx ≤ 3 →
        ¬((x : ℚ) + (c.width : ℚ) * (1 / 2) > (maxX : ℚ)) →
        matchAt scr c ((x : Int) + mx) ((search_y : Int) + my)
          ≤ (pickBest scr table maxX x search_y).best_character_percent) ∧
      (x < maxX → string_at_loop scr table search_y maxX x
        = (pickBest scr table maxX x search_y).best_character ::
            string_at_loop scr table search_y maxX (x + len))) := by
  have hspec := tryFold_spec scr maxX x search_y
    (offsets.flatMap fun p => table.map fun c => (p, c)) ⟨0, 0, none, 0⟩
  rw [← pickBest_eq_foldl_tries] at hspec
  obtain ⟨hs1, hs2, hs3⟩ := hspec
  have hmax : ∀ c ∈ table, ∀ my mx : Int, -3 ≤ my → my ≤ 3 → -3 ≤ mx → mx ≤ 3 →
      ¬((x : ℚ) + (c.width : ℚ) * (1 / 2) > (maxX : ℚ)) →
      matchAt scr c ((x : Int) + mx) ((search_y : Int) + my)
        ≤ (pickBest scr table maxX x search_y).best_character_percent := by
    intro c hc my mx hmy1 hmy2 hmx1 hmx2 hskip
    exact hs2 ((my, mx), c)
      ((mem_tries_iff table ((my, mx), c)).mpr ⟨hmy1, hmy2, hmx1, hmx2, hc⟩) hskip
  refine ⟨fun hx => string_at_loop_of_ge scr table search_y maxX x hx, ?_,
    fun hx hb => string_at_loop_of_none scr table search_y maxX x hx hb, ?_⟩
  · constructor
    · intro hnone c hc my mx hmy1 hmy2 hmx1 hmx2 hskip
      have hle := hmax c hc my mx hmy1 hmy2 hmx1 hmx2 hskip
      have hzero : (pickBest scr table maxX x search_y).best_character_percent = 0 := by
        rcases hs3 with h3 | ⟨pc, hpc, hns, hres, hlt⟩
        · rw [h3]
        · rw [hres] at hnone
          exact absurd hnone (by simp)
      rw [hzero] at hle
      exact le_antisymm hle (matchAt_nonneg scr c _ _)
    · intro hall
      rcases hs3 with h3 | ⟨pc, hpc, hns, hres, hlt⟩
      · rw [h3]
      · exfalso
        obtain ⟨hb1, hb2, hb3, hb4, hbc⟩ := (mem_tries_iff table pc).mp hpc
        have hzero := hall pc.2 hbc pc.1.1 pc.1.2 hb1 hb2 hb3 hb4 hns
        have : (0 : ℚ) < tryScore scr x search_y pc := hlt
        rw [show tryScore scr x search_y pc
          = matchAt scr pc.2 ((x : Int) + pc.1.2) ((search_y : Int) + pc.1.1) from rfl,
          hzero] at this
        exact lt_irrefl 0 this
  · intro len hsome
    rcases hs3 with h3 | ⟨pc, hpc, hns, hres, hlt⟩
    · rw [h3] at hsome
      exact absurd hsome (by simp)
    · obtain ⟨hb1, hb2, hb3, hb4, hbc⟩ := (mem_tries_iff table pc).mp hpc
      have hlen : len = pc.2.width := by
        rw [hres] at hsome
        exact (Option.some_inj.mp hsome).symm
      refine ⟨⟨pc.2, hbc, pc.1.1, pc.1.2, ⟨hb1, hb2, hb3, hb4⟩, hns, hlen, ?_, ?_, ?_⟩,
        hmax, ?_⟩
      · rw [hres]
      · rw [hres]
        rfl
      · exact hlt
      · intro hx
        exact string_at_loop_of_some scr table search_y maxX x len hx hsome

/-- An all-zero 2×2 candidate template whose source text is `"A"`. -/
def zeroTemplate : MonochromeImage := ⟨2, 2, fun _ _ => 0, [65]⟩

lemma zeroTemplate_match_one : matchAt blankScr zeroTemplate 0 100 = 1 := by
  rw [matchAt, if_neg (by norm_num)]
  apply matchScore_eq_one
  · decide
  · intro tx ty htx hty
    show ((0 : Int) - ((0 : Nat) : Int)).natAbs < 0x10
    decide

/-- A concrete instantiation of `C6_string_at_decode`: with an empty candidate
table the loop stops at once (everything scores zero), and with the all-zero
2×2 template on the blank screenshot the loop appends that candidate's source
character and advances by its tabulated width 2. -/
theorem C6_string_at_decode_witness :
    string_at_loop blankScr [] 100 5 5 = [] ∧
    (pickBest blankScr [] 7 3 100).best_length = none ∧
    string_at_loop blankScr [] 100 7 3 = [] ∧
    (pickBest blankScr [zeroTemplate] 10 0 100).best_length = some 2 ∧
    string_at_loop blankScr [zeroTemplate] 100 10 0
      = (pickBest blankScr [zeroTemplate] 10 0 100).best_character ::
          string_at_loop blankScr [zeroTemplate] 100 10 (0 + 2) := by
  have h1 := C6_string_at_decode blankScr [] 100 5 5
  have h2 := C6_string_at_decode blankScr [] 100 7 3
  have h3 := C6_string_at_decode blankScr [zeroTemplate] 100 10 0
  have hempty : (pickBest blankScr [] 7 3 100).best_length = none :=
    h2.2.1.mpr fun c hc => absurd hc (List.not_mem_nil c)
  refine ⟨h1.1 (le_refl 5), hempty, h2.2.2.1 (by omega) hempty, ?_⟩
  have hnone : ¬(pickBest blankScr [zeroTemplate] 10 0 100).best_length = none := by
    intro hn
    have hz := h3.2.1.mp hn zeroTemplate (List.mem_singleton_self _) 0 0
      (by norm_num) (by norm_num) (by norm_num) (by norm_num)
      (by show ¬((0 : ℚ) + (2 : ℚ) * (1 / 2) > (10 : ℚ)); norm_num)
    rw [show ((0 : Nat) : Int) + (0 : Int) = 0 from by norm_num,
      show ((100 : Nat) : Int) + (0 : Int) = 100 from by norm_num] at hz
    rw [zeroTemplate_match_one] at hz
    exact one_ne_zero hz
  obtain ⟨len, hlen⟩ := Option.ne_none_iff_exists'.mp hnone
  obtain ⟨⟨c, hc, my, mx, -, -, hlenw, -, -, -⟩, -, -⟩ := h3.2.2.2 len hlen
  have hc2 : c = zeroTemplate := List.mem_singleton.mp hc
  have hl2 : len = 2 := by
    rw [hlenw, hc2]
    rfl
  rw [hl2] at hlen
  exact ⟨hlen, (h3.2.2.2 2 hlen).2.2 (by omega)⟩
